import Mathlib

/-!
Verification development for the wiregen configuration engine.

The TypeScript sources are shallowly embedded over `Str := List Char`:
JavaScript strings become `List Char`, `undefined`-able fields become
`Option`, JavaScript numbers become `Int` (with `Option Int` where a field
can be `undefined`; `NaN` results of `parseInt`/`Number` are folded into
`none`, which is observationally equivalent for every operation modelled
here since both are falsy and compare unequal to every integer), thrown
exceptions become `Option`/failure results.  Functions keep the source
names where Lean allows.
-/

set_option maxHeartbeats 1000000
set_option maxRecDepth 4000
set_option synthInstance.maxSize 1024
set_option synthInstance.maxHeartbeats 1000000

abbrev Str := List Char

def str (s : String) : Str := s.toList

/-- JavaScript-style whitespace test restricted to the ASCII whitespace that
occurs in the modelled configuration texts. -/
def isWS (c : Char) : Bool :=
  c = ' ' || c = '\t' || c = '\n' || c = '\r' || c = '\x0b' || c = '\x0c'

def trimL (s : Str) : Str := s.dropWhile isWS

def trimR (s : Str) : Str := (s.reverse.dropWhile isWS).reverse

/-- Embedding of `String.prototype.trim`. -/
def trim (s : Str) : Str := trimR (trimL s)

/-- Embedding of `String.prototype.split(sep)` for a one-character separator:
never returns an empty list, returns `[s]` when the separator is absent. -/
def splitOnC (c : Char) : Str → List Str
  | [] => [[]]
  | x :: xs =>
    let r := splitOnC c xs
    if x = c then [] :: r else (x :: r.headD []) :: r.tail

def splitNL (s : Str) : List Str := splitOnC '\n' s

/-- Splits a string at the first occurrence of `c`; `none` when `c` is absent.
`some (a, b)` means the string is `a ++ c :: b` with `c ∉ a`; this models the
`indexOf`/`slice` pair used by the source parser. -/
def breakAtFirst (c : Char) : Str → Option (Str × Str)
  | [] => none
  | x :: xs =>
    if x = c then some ([], xs)
    else
      match breakAtFirst c xs with
      | some (a, b) => some (x :: a, b)
      | none => none

/-- Splits a string at the last occurrence of `c`. -/
def breakAtLast (c : Char) (s : Str) : Option (Str × Str) :=
  match breakAtFirst c s.reverse with
  | some (a, b) => some (b.reverse, a.reverse)
  | none => none

def lower (s : Str) : Str := s.map Char.toLower

def digitChar (d : Nat) : Char :=
  if d = 0 then '0' else if d = 1 then '1' else if d = 2 then '2'
  else if d = 3 then '3' else if d = 4 then '4' else if d = 5 then '5'
  else if d = 6 then '6' else if d = 7 then '7' else if d = 8 then '8' else '9'

def hexChar (d : Nat) : Char :=
  if d < 10 then digitChar d
  else if d = 10 then 'a' else if d = 11 then 'b' else if d = 12 then 'c'
  else if d = 13 then 'd' else if d = 14 then 'e' else 'f'

def digitVal (c : Char) : Nat := c.toNat - 48

def decDigitsVal (ds : Str) : Nat := ds.foldl (fun a c => 10 * a + digitVal c) 0

def isHexDigitB (c : Char) : Bool :=
  c.isDigit || ('a' ≤ c && c ≤ 'f') || ('A' ≤ c && c ≤ 'F')

def hexDigitVal (c : Char) : Nat :=
  if c.isDigit then c.toNat - 48
  else if 'a' ≤ c then c.toNat - 87
  else c.toNat - 55

def hexDigitsVal (ds : Str) : Nat := ds.foldl (fun a c => 16 * a + hexDigitVal c) 0

/-- Digit scan of `parseInt` after the sign: a leading `0x`/`0X` switches to
hexadecimal (default-radix behaviour of JavaScript), otherwise the longest
decimal-digit run is read; no digits means `NaN`, modelled as `none`. -/
def parseIntNoSign (s : Str) : Option Nat :=
  match s with
  | '0' :: x :: rest =>
    if x = 'x' ∨ x = 'X' then
      let ds := rest.takeWhile isHexDigitB
      if ds = [] then none else some (hexDigitsVal ds)
    else some (decDigitsVal (('0' :: x :: rest).takeWhile Char.isDigit))
  | s =>
    let ds := s.takeWhile Char.isDigit
    if ds = [] then none else some (decDigitsVal ds)

/-- Embedding of JavaScript `parseInt(s)` (default radix). -/
def jsParseInt (s : Str) : Option Int :=
  match trimL s with
  | '-' :: rest => (parseIntNoSign rest).map (fun n => -(n : Int))
  | '+' :: rest => (parseIntNoSign rest).map (fun n => (n : Int))
  | t => (parseIntNoSign t).map (fun n => (n : Int))

/-- Hex scan of `parseInt(s, 16)`: optional `0x` marker, then hex digits. -/
def parseHexNoSign (s : Str) : Option Nat :=
  let s2 := match s with
    | '0' :: x :: rest => if x = 'x' ∨ x = 'X' then rest else '0' :: x :: rest
    | s => s
  let ds := s2.takeWhile isHexDigitB
  if ds = [] then none else some (hexDigitsVal ds)

/-- Embedding of JavaScript `parseInt(s, 16)`. -/
def jsParseIntHex (s : Str) : Option Int :=
  match trimL s with
  | '-' :: rest => (parseHexNoSign rest).map (fun n => -(n : Int))
  | '+' :: rest => (parseHexNoSign rest).map (fun n => (n : Int))
  | t => (parseHexNoSign t).map (fun n => (n : Int))

/-- Digit accumulator for decimal rendering.  The recursion is on an
explicit fuel so that the definition reduces inside the kernel; any fuel
above the value itself is sufficient (see `natToStrAux_fuel`). -/
def natToStrAux (fuel : Nat) (n : Nat) (acc : Str) : Str :=
  match fuel with
  | 0 => acc
  | fuel + 1 =>
    if n < 10 then digitChar n :: acc
    else natToStrAux fuel (n / 10) (digitChar (n % 10) :: acc)

/-- Decimal rendering of a natural number, as JavaScript template literals
render a non-negative integer. -/
def natToStr (n : Nat) : Str := natToStrAux (n + 1) n []

def intToStr (n : Int) : Str :=
  if n < 0 then '-' :: natToStr (-n).toNat else natToStr n.toNat

def natToHexStrAux (fuel : Nat) (n : Nat) (acc : Str) : Str :=
  match fuel with
  | 0 => acc
  | fuel + 1 =>
    if n < 16 then hexChar n :: acc
    else natToHexStrAux fuel (n / 16) (hexChar (n % 16) :: acc)

/-- Lower-case hex rendering, as JavaScript `n.toString(16)` for `n ≥ 0`. -/
def natToHexStr (n : Nat) : Str := natToHexStrAux (n + 1) n []

/-- Embedding of JavaScript `Number(s)` restricted to the decimal-integer
forms that arise from the modelled address strings; exotic numeric syntax
(hex, exponents, fractions) is folded into `none` together with `NaN`,
which leaves every integer comparison performed on the result unchanged. -/
def jsNumber (s : Str) : Option Int :=
  let t := trim s
  if t = [] then some 0
  else match t with
    | '-' :: rest =>
      if rest ≠ [] ∧ rest.all Char.isDigit then some (-(decDigitsVal rest : Int)) else none
    | '+' :: rest =>
      if rest ≠ [] ∧ rest.all Char.isDigit then some (decDigitsVal rest) else none
    | t => if t.all Char.isDigit then some (decDigitsVal t) else none

/-! ## Data model (src/types/WireGuardConfig.ts, src/types/Settings.ts) -/

structure PeerConfig where
  publicKey : Str := []
  allowedIPs : List Str := []
  endpoint : Option Str := none
  persistentKeepalive : Option Int := none
  presharedKey : Option Str := none
  configId : Option Str := none
deriving DecidableEq, Repr

structure InterfaceConfig where
  privateKey : Str := []
  listenPort : Option Int := none
  endpoint : Option Str := none
  address : List Str := []
  dns : List Str := []
  postUp : Option Str := none
  postDown : Option Str := none
deriving DecidableEq, Repr

/-- `WireGuardConfig` aggregate.  The runtime-only `createdAt`/`updatedAt`
`Date` fields are outside the pure fragment being verified (every claim
explicitly excludes them) and are omitted; `interface` is spelled `iface`. -/
structure WireGuardConfig where
  id : Str := []
  name : Str := []
  iface : InterfaceConfig := {}
  peers : List PeerConfig := []
  enableAllPeers : Option Bool := none
deriving DecidableEq, Repr

structure AmneziaWGSettings where
  enabled : Option Bool := none
  H1 : Option Int := none
  H2 : Option Int := none
  H3 : Option Int := none
  H4 : Option Int := none
  S1 : Option Int := none
  S2 : Option Int := none
  Jc : Option Int := none
  Jmin : Option Int := none
  Jmax : Option Int := none
  I1 : Option Str := none
  I2 : Option Str := none
  I3 : Option Str := none
  I4 : Option Str := none
  I5 : Option Str := none
deriving DecidableEq, Repr

structure Settings where
  mtu : Option Int := none
  IPv4CIDR : Option Str := none
  IPv6CIDR : Option Str := none
  persistentKeepalive : Option Int := none
  listenPort : Option Int := none
  amneziaWG : Option AmneziaWGSettings := none
deriving DecidableEq, Repr

/-! ## Config codec (src/unnamed/part_012, `parseWireGuardConfig`)

The parser is a fold of `processLine` over the trimmed lines; a thrown
`Error` is modelled as `none`. -/

inductive Sect where
  | nosec
  | iface
  | peer
deriving DecidableEq, Repr

structure PState where
  sec : Sect := Sect.nosec
  iface : InterfaceConfig := {}
  peers : List PeerConfig := []
  cur : Option PeerConfig := none
deriving DecidableEq, Repr

/-- The fresh peer object allocated at each `[Peer]` header. -/
def emptyPeer : PeerConfig :=
  { publicKey := []
    allowedIPs := []
    endpoint := none
    persistentKeepalive := none
    presharedKey := none
    configId := none }

/-- The `[Interface]` key switch of the source parser (`MTU` and unknown keys
are ignored). -/
def applyInterfaceKV (i : InterfaceConfig) (key value : Str) : InterfaceConfig :=
  if key = str ("privatekey") then { i with privateKey := value }
  else if key = str ("address") then { i with address := (splitOnC ',' value).map trim }
  else if key = str ("listenport") then { i with listenPort := jsParseInt value }
  else if key = str ("dns") then { i with dns := (splitOnC ',' value).map trim }
  else if key = str ("mtu") then i
  else if key = str ("postup") then
    { i with postUp := some (value.map (fun c => if c = ';' then '\n' else c)) }
  else if key = str ("postdown") then
    { i with postDown := some (value.map (fun c => if c = ';' then '\n' else c)) }
  else i

/-- The `[Peer]` key switch; an invalid `PersistentKeepalive` throws. -/
def applyPeerKV (p : PeerConfig) (key value : Str) : Option PeerConfig :=
  if key = str ("publickey") then some { p with publicKey := value }
  else if key = str ("allowedips") then some { p with allowedIPs := (splitOnC ',' value).map trim }
  else if key = str ("endpoint") then some { p with endpoint := some value }
  else if key = str ("persistentkeepalive") then
    match jsParseInt value with
    | none => none
    | some k => if k < 0 then none else some { p with persistentKeepalive := some k }
  else if key = str ("presharedkey") then some { p with presharedKey := some value }
  else some p

/-- One iteration of the parser loop over an already-trimmed line, mirroring
the source statement for statement (including the comment special case that
falls through into the generic key/value handling). -/
def processLine (st : PState) (line : Str) : Option PState :=
  if line = [] then some st
  else
    let st :=
      if line.head? = some '#' ∧ st.sec = Sect.iface then
        match breakAtFirst '=' line with
        | some (k, v) =>
          if lower (trim (k.drop 1)) = str ("endpoint") then
            { st with iface := { st.iface with endpoint := some (trim v) } }
          else st
        | none => st
      else st
    if line = str ("[Interface]") then some { st with sec := Sect.iface }
    else if line = str ("[Peer]") then
      some { st with
              sec := Sect.peer
              peers := st.peers ++ st.cur.toList
              cur := some emptyPeer }
    else
      match st.sec with
      | Sect.nosec =>
        match breakAtFirst '=' line with
        | some _ => none
        | none => some st
      | Sect.iface =>
        match breakAtFirst '=' line with
        | none => none
        | some (k, v) =>
          some { st with iface := applyInterfaceKV st.iface (lower (trim k)) (trim v) }
      | Sect.peer =>
        match breakAtFirst '=' line with
        | none => none
        | some (k, v) =>
          match st.cur with
          | some p =>
            (applyPeerKV p (lower (trim k)) (trim v)).map (fun q => { st with cur := some q })
          | none => some st

def runLines (st : PState) : List Str → Option PState
  | [] => some st
  | l :: ls =>
    match processLine st l with
    | some st2 => runLines st2 ls
    | none => none

/-- The parse result.  The source additionally stamps a fresh `uuid` id and
`new Date()` timestamps; those are generated, not parsed, and every claim
excludes them, so the parsed value carries name, interface and peers. -/
structure WGParsed where
  name : Str := []
  iface : InterfaceConfig := {}
  peers : List PeerConfig := []
deriving DecidableEq, Repr

def parseWireGuardConfig (content : Str) (configName : Str) : Option WGParsed :=
  match runLines {} ((splitNL content).map trim) with
  | some st =>
    some { name := if configName = [] then str ("Imported Configuration") else configName
           iface := st.iface
           peers := st.peers ++ st.cur.toList }
  | none => none

/-! ## Generation (src/unnamed/part_012, `generateWireGuardConfig`,
`peerFromConfig`).  `getPublicKey` calls into the x25519 library; it enters
the embedding as an explicit function parameter `gpk`. -/

/-- The regex replace `addr.replace(/\/(\d+)$/, repl)`: if the string ends in
a slash followed by one or more decimal digits, that tail is replaced. -/
def replaceCidrSuffix (s : Str) (repl : Str) : Str :=
  let r := s.reverse
  let ds := r.takeWhile Char.isDigit
  if ds = [] then s
  else
    match r.drop ds.length with
    | '/' :: restRev => restRev.reverse ++ repl
    | _ => s

/-- The allowed-IPs narrowing inside `peerFromConfig`. -/
def mapSingleHostAddr (addr : Str) : Str :=
  if '.' ∈ addr then replaceCidrSuffix addr (str ("/32"))
  else if ':' ∈ addr then replaceCidrSuffix addr (str ("/128"))
  else addr

def peerFromConfig (gpk : Str → Str) (config : WireGuardConfig) (settings : Settings) : PeerConfig :=
  { publicKey := gpk config.iface.privateKey
    allowedIPs := config.iface.address.map mapSingleHostAddr
    endpoint := config.iface.endpoint
    presharedKey := some []
    persistentKeepalive := settings.persistentKeepalive
    configId := some config.id }

/-- The synthesized peers appended when `enableAllPeers` is in effect:
`Object.values(allConfigs)` filtered and mapped exactly as in the source
(the duplicate check ranges over the explicit `config.peers` only). -/
def synthesizedPeers (gpk : Str → Str) (settings : Settings) (config : WireGuardConfig)
    (allConfigs : List (Str × WireGuardConfig)) : List PeerConfig :=
  (((allConfigs.map Prod.snd).filter
      (fun c => c.id != config.id && c.iface.privateKey != config.iface.privateKey)).filter
      (fun c => config.peers.all (fun peer => peer.publicKey != gpk c.iface.privateKey))).map
    (fun c => peerFromConfig gpk c settings)

/-- The local `peers` variable of `generateWireGuardConfig` after the
`enableAllPeers` expansion. -/
def expandedPeers (gpk : Str → Str) (settings : Settings) (config : WireGuardConfig)
    (allConfigs : Option (List (Str × WireGuardConfig))) : List PeerConfig :=
  match allConfigs with
  | some m =>
    if config.enableAllPeers = some true then
      config.peers ++ synthesizedPeers gpk settings config m
    else config.peers
  | none => config.peers

/-- `postUp.replace(/\r?\n/g, '; ')`. -/
def jsReplaceNewlines : Str → Str
  | [] => []
  | '\r' :: '\n' :: rest => ';' :: ' ' :: jsReplaceNewlines rest
  | '\n' :: rest => ';' :: ' ' :: jsReplaceNewlines rest
  | c :: rest => c :: jsReplaceNewlines rest

/-- JavaScript `Array.prototype.join(', ')`. -/
def joinComma : List Str → Str
  | [] => []
  | x :: xs => x ++ xs.flatMap (fun e => ',' :: ' ' :: e)

def strTruthy : Option Str → Bool
  | some s => !s.isEmpty
  | none => false

def numTruthy : Option Int → Bool
  | some n => n != 0
  | none => false

/-- The `[Interface]` block of the generated text, one string per emitted
line, in the source's emission order. -/
def genInterfaceLines (gpk : Str → Str) (settings : Settings) (c : WireGuardConfig) : List Str :=
  [str ("[Interface]"),
   str ("PrivateKey = ") ++ c.iface.privateKey,
   str ("# PublicKey = ") ++ gpk c.iface.privateKey]
  ++ (match c.iface.endpoint with
      | some e => if e = [] then [] else [str ("# Endpoint = ") ++ e]
      | none => [])
  ++ (if c.iface.address = [] then [] else [str ("Address = ") ++ joinComma c.iface.address])
  ++ (match c.iface.listenPort with
      | some n => if n = 0 then [] else [str ("ListenPort = ") ++ intToStr n]
      | none => [])
  ++ (if c.iface.dns = [] then [] else [str ("DNS = ") ++ joinComma c.iface.dns])
  ++ (match settings.mtu with
      | some m => if m = 0 then [] else [str ("MTU = ") ++ intToStr m]
      | none => [])
  ++ (match c.iface.postUp with
      | some s => if s = [] then [] else [str ("PostUp = ") ++ jsReplaceNewlines s]
      | none => [])
  ++ (match c.iface.postDown with
      | some s => if s = [] then [] else [str ("PostDown = ") ++ jsReplaceNewlines s]
      | none => [])

/-- One `[Peer]` block (preceded by the blank line the source's
`'\n[Peer]\n'` produces). -/
def genPeerLines (p : PeerConfig) : List Str :=
  [[], str ("[Peer]"), str ("PublicKey = ") ++ p.publicKey]
  ++ (if p.allowedIPs = [] then [] else [str ("AllowedIPs = ") ++ joinComma p.allowedIPs])
  ++ (match p.endpoint with
      | some e => if e = [] then [] else [str ("Endpoint = ") ++ e]
      | none => [])
  ++ (match p.persistentKeepalive with
      | some n => if 0 < n then [str ("PersistentKeepalive = ") ++ intToStr n] else []
      | none => [])
  ++ (match p.presharedKey with
      | some k => if k = [] then [] else [str ("PresharedKey = ") ++ k]
      | none => [])

def generateLines (gpk : Str → Str) (settings : Settings) (config : WireGuardConfig)
    (allConfigs : Option (List (Str × WireGuardConfig))) : List Str :=
  genInterfaceLines gpk settings config
    ++ (expandedPeers gpk settings config allConfigs).flatMap genPeerLines

/-- Every `content += ...` of the source appends a line terminated by `\n`,
so the full text is the lines each followed by a newline. -/
def joinLines (ls : List Str) : Str := ls.flatMap (fun l => l ++ ['\n'])

def generateWireGuardConfig (gpk : Str → Str) (settings : Settings) (config : WireGuardConfig)
    (allConfigs : Option (List (Str × WireGuardConfig))) : Str :=
  joinLines (generateLines gpk settings config allConfigs)

/-! ## Validators (src/unnamed/part_009, `validateEndpoint`) -/

/-- Whether `h` matches the host alternation of the endpoint regex
`^([^:]+|\[[0-9a-fA-F0-9:]+\]):\d{1,5}$`: either a non-empty colon-free
string, or a bracketed non-empty run of hex digits and colons. -/
def hostFormOk (h : Str) : Bool :=
  (!h.isEmpty && !h.contains ':')
  || (h.head? = some '[' && h.getLast? = some ']'
      && !((h.drop 1).dropLast).isEmpty
      && ((h.drop 1).dropLast).all (fun c => isHexDigitB c || c = ':'))

/-- Matcher for the endpoint regex: because `\d{1,5}$` admits no colon, any
match splits the string at its last colon into the host part and a run of
one to five digits; `breakAtLast` realizes exactly that decomposition. -/
def endpointRegexTest (s : Str) : Bool :=
  match breakAtLast ':' s with
  | some (h, d) => hostFormOk h && !d.isEmpty && d.length ≤ 5 && d.all Char.isDigit
  | none => false

def validateEndpoint (endpoint : Option Str) : Option Str :=
  match endpoint with
  | none => none
  | some e =>
    if e = [] then none
    else if endpointRegexTest e then none
    else some (str ("Invalid endpoint format (e.g., example.com:51820)"))

/-- Port-value check taken from the words of the specification: `host:port`
or `[ipv6]:port` with the port a number in 1–65535 (refinement reference for
`validateEndpoint`, not part of the source). -/
def specEndpointShape (s : Str) : Bool :=
  match breakAtLast ':' s with
  | some (h, d) =>
    hostFormOk h && !d.isEmpty && d.all Char.isDigit
      && decide (1 ≤ decDigitsVal d) && decide (decDigitsVal d ≤ 65535)
  | none => false

/-! ## AmneziaWG cross-field validation (src/unnamed/part_002,
`validateAmnezia` in the settings form).  The accumulated `errors` object is
modelled as the association list of its entries in insertion order; the
source never assigns the same key twice, so insertion order determines the
object completely. -/

def hVals (a : AmneziaWGSettings) : List Int :=
  [a.H1, a.H2, a.H3, a.H4].reduceOption

def hBoundErr (key : Str) (v : Option Int) : List (Str × Str) :=
  match v with
  | some n => if n < 0 ∨ n > 2147483647 then [(key, str ("Value must be 0-2147483647"))] else []
  | none => []

def hexFieldErr (key : Str) (v : Option Str) : List (Str × Str) :=
  match v with
  | some s => if s ≠ [] ∧ ¬ s.all isHexDigitB then [(key, str ("Hex only"))] else []
  | none => []

def amneziaErrors (a : AmneziaWGSettings) : List (Str × Str) :=
  (if (hVals a).length ≠ (hVals a).dedup.length
   then [(str ("amneziaWG.Hx"), str ("H1-H4 must be unique"))] else [])
  ++ hBoundErr (str ("amneziaWG.H1")) a.H1
  ++ hBoundErr (str ("amneziaWG.H2")) a.H2
  ++ hBoundErr (str ("amneziaWG.H3")) a.H3
  ++ hBoundErr (str ("amneziaWG.H4")) a.H4
  ++ (match a.S1 with
      | some s1 =>
        (if s1 > 1132 then [(str ("amneziaWG.S1"), str ("S1 must be le 1132"))] else [])
        ++ (if s1 ≤ 0 then [(str ("amneziaWG.S1"), str ("S1 must be positive"))] else [])
      | none => [])
  ++ (match a.S2 with
      | some s2 =>
        (if s2 > 1188 then [(str ("amneziaWG.S2"), str ("S2 must be le 1188"))] else [])
        ++ (if s2 ≤ 0 then [(str ("amneziaWG.S2"), str ("S2 must be positive"))] else [])
      | none => [])
  ++ (match a.S1, a.S2 with
      | some s1, some s2 =>
        if s1 + 56 = s2 then [(str ("amneziaWG.S1S2"), str ("S1 + 56 must not equal S2"))] else []
      | _, _ => [])
  ++ hexFieldErr (str ("amneziaWG.I1")) a.I1
  ++ hexFieldErr (str ("amneziaWG.I2")) a.I2
  ++ hexFieldErr (str ("amneziaWG.I3")) a.I3
  ++ hexFieldErr (str ("amneziaWG.I4")) a.I4
  ++ hexFieldErr (str ("amneziaWG.I5")) a.I5
  ++ (match a.Jc with
      | some jc => if jc < 0 ∨ jc > 128 then [(str ("amneziaWG.Jc"), str ("Jc 0-128"))] else []
      | none => [])
  ++ (match a.Jmin with
      | some jmin => if jmin ≥ 1280 then [(str ("amneziaWG.Jmin"), str ("Jmin lt 1280"))] else []
      | none => [])
  ++ (match a.Jmax with
      | some jmax => if jmax > 1280 then [(str ("amneziaWG.Jmax"), str ("Jmax le 1280"))] else []
      | none => [])
  ++ (match a.Jmin, a.Jmax with
      | some jmin, some jmax =>
        if ¬ jmin < jmax then [(str ("amneziaWG.JminJmax"), str ("Jmax must be gt Jmin"))] else []
      | _, _ => [])

def validateAmnezia (amz : Option AmneziaWGSettings) : Option (List (Str × Str)) :=
  match amz with
  | none => none
  | some a => if a.enabled = some true then some (amneziaErrors a) else none

/-! ## Next-free-address suggestion (src/components/ConfigDetail.tsx,
the two address buttons).  `allConfigs` enters as the list of the other
configs' address lists; `edited` is the config being edited. -/

/-- The body of the scan
`let next = 1; while (used.includes(next) && next < cap) next++`, recursing
on the exact remaining fuel `cap - next`: the fuel is zero exactly when
`next < cap` fails, so `nextLoopAux used (cap - next) next` performs the
loop literally. -/
def nextLoopAux (used : List (Option Int)) : Nat → Nat → Nat
  | 0, next => next
  | fuel + 1, next =>
    if some (next : Int) ∈ used then nextLoopAux used fuel (next + 1) else next

def nextLoop (used : List (Option Int)) (cap : Nat) (next : Nat) : Nat :=
  nextLoopAux used (cap - next) next

def beforeSlash (s : Str) : Str := s.takeWhile (fun c => c != '/')

def lastDotSeg (s : Str) : Str := (splitOnC '.' s).getLastD []

def lastColonSeg (s : Str) : Str := (splitOnC ':' s).getLastD []

def subnetBase (subnet : Str) : Str := (splitOnC '/' subnet).headD []

def subnetMask (subnet : Str) : Str :=
  match (splitOnC '/' subnet).get? 1 with
  | some m => m
  | none => str ("undefined")

/-- Host numbers of the IPv4 addresses that share the pool's prefix length:
filter by `includes('.') && endsWith('/' + mask)`, then `Number` of the last
dot-separated segment of the part before the slash. -/
def usedV4 (mask : Str) (addrs : List Str) : List (Option Int) :=
  (addrs.filter (fun a => a.contains '.' && List.isSuffixOf ('/' :: mask) a)).map
    (fun a => jsNumber (lastDotSeg (beforeSlash a)))

def usedV6 (mask : Str) (addrs : List Str) : List (Option Int) :=
  (addrs.filter (fun a => a.contains ':' && List.isSuffixOf ('/' :: mask) a)).map
    (fun a => jsParseIntHex (lastColonSeg (beforeSlash a)))

def usedPoolV4 (subnet : Str) (allAddrs : List (List Str)) (edited : List Str) :
    List (Option Int) :=
  usedV4 (subnetMask subnet) (allAddrs.flatMap id) ++ usedV4 (subnetMask subnet) edited

def usedPoolV6 (subnet : Str) (allAddrs : List (List Str)) (edited : List Str) :
    List (Option Int) :=
  usedV6 (subnetMask subnet) (allAddrs.flatMap id) ++ usedV6 (subnetMask subnet) edited

def jsNumToStr (o : Option Int) : Str :=
  match o with
  | some n => intToStr n
  | none => str ("NaN")

def v4Part (base : Str) (i : Nat) : Str :=
  match (splitOnC '.' base).get? i with
  | some s => jsNumToStr (jsNumber s)
  | none => str ("undefined")

def fmtV4 (base mask : Str) (n : Nat) : Str :=
  v4Part base 0 ++ '.' :: v4Part base 1 ++ '.' :: v4Part base 2 ++ '.' :: natToStr n
    ++ '/' :: mask

def fmtV6 (base mask : Str) (n : Nat) : Str :=
  base ++ (if base.getLast? = some ':' then [] else [':']) ++ natToHexStr n ++ '/' :: mask

/-- The IPv4 button handler: append the suggested address to the edited
address list, or leave the list unchanged when the range is exhausted. -/
def addNetworkIPv4 (subnet : Str) (allAddrs : List (List Str)) (edited : List Str) :
    List Str :=
  let next := nextLoop (usedPoolV4 subnet allAddrs edited) 255 1
  if next < 255 then edited ++ [fmtV4 (subnetBase subnet) (subnetMask subnet) next]
  else edited

def addNetworkIPv6 (subnet : Str) (allAddrs : List (List Str)) (edited : List Str) :
    List Str :=
  let next := nextLoop (usedPoolV6 subnet allAddrs edited) 65535 1
  if next < 65535 then edited ++ [fmtV6 (subnetBase subnet) (subnetMask subnet) next]
  else edited

/-! ## Auxiliary definitions for the claims: wire-cleanliness of field
values, the peer projection a parse can recover, and the concrete inputs
used by counterexamples and witnesses. -/

@[reducible] def headNotWSB (s : Str) : Bool :=
  match s.head? with
  | some c => !isWS c
  | none => true

@[reducible] def lastNotWSB (s : Str) : Bool :=
  match s.getLast? with
  | some c => !isWS c
  | none => true

@[reducible] def headNotWS (s : Str) : Prop := headNotWSB s = true

@[reducible] def lastNotWS (s : Str) : Prop := lastNotWSB s = true

/-- A string that survives the line codec: no embedded newline and no
leading/trailing whitespace (the parser trims every line and every value). -/
@[reducible] def cleanStr (s : Str) : Prop := '\n' ∉ s ∧ headNotWS s ∧ lastNotWS s

/-- A member of a comma-joined list value additionally has to be non-empty
and comma-free. -/
@[reducible] def cleanItem (s : Str) : Prop := s ≠ [] ∧ ',' ∉ s ∧ cleanStr s

/-- Lifts a predicate over an optional value (`True` when absent). -/
@[reducible] def optHolds (P : α → Prop) : Option α → Prop
  | some x => P x
  | none => True

instance {α : Type} (P : α → Prop) [DecidablePred P] : (o : Option α) → Decidable (optHolds P o)
  | some x => inferInstanceAs (Decidable (P x))
  | none => isTrue trivial

/-- An optional string field that generation emits exactly when present:
absent, or a non-empty clean value (the generator drops falsy strings). -/
@[reducible] def cleanOptStr (o : Option Str) : Prop :=
  optHolds (fun s => s ≠ [] ∧ cleanStr s) o

/-- `postUp`/`postDown` round-trip only without the `\n`/`;` characters that
the two codec directions rewrite into each other. -/
@[reducible] def cleanScript (o : Option Str) : Prop :=
  optHolds (fun s => s ≠ [] ∧ ';' ∉ s ∧ cleanStr s) o

@[reducible] def posKeepalive (o : Option Int) : Prop :=
  optHolds (fun n => 0 < n) o

@[reducible] def nzPort (o : Option Int) : Prop :=
  optHolds (fun n => n ≠ 0) o

@[reducible] def cleanPeer (p : PeerConfig) : Prop :=
  cleanStr p.publicKey ∧ (∀ a ∈ p.allowedIPs, cleanItem a)
    ∧ cleanOptStr p.endpoint ∧ posKeepalive p.persistentKeepalive
    ∧ cleanOptStr p.presharedKey

/-- Wire-cleanliness of a whole config (together with the derived public key
the generator embeds into a comment): the hypotheses under which the text
codec can reproduce the structured fields. -/
@[reducible] def WireClean (gpk : Str → Str) (c : WireGuardConfig) : Prop :=
  cleanStr c.iface.privateKey
    ∧ cleanStr (gpk c.iface.privateKey)
    ∧ cleanOptStr c.iface.endpoint
    ∧ (∀ a ∈ c.iface.address, cleanItem a)
    ∧ nzPort c.iface.listenPort
    ∧ (∀ a ∈ c.iface.dns, cleanItem a)
    ∧ cleanScript c.iface.postUp
    ∧ cleanScript c.iface.postDown
    ∧ ∀ p ∈ c.peers, cleanPeer p

/-- What parsing the generated text can recover of a peer: everything except
the purely in-memory `configId` back-reference, which the wire format does
not carry. -/
def roundPeer (p : PeerConfig) : PeerConfig := { p with configId := none }

def parsedName (configName : Str) : Str :=
  if configName = [] then str ("Imported Configuration") else configName

/-- The peer fields claim C1 tracks through the round trip. -/
def peerView (p : PeerConfig) : Str × List Str × Option Str × Option Int :=
  (p.publicKey, p.allowedIPs, p.endpoint, p.persistentKeepalive)

def peerKeepalives (l : List PeerConfig) : List (Option Int) :=
  l.map PeerConfig.persistentKeepalive

def parsedKeepalives (o : Option WGParsed) : Option (List (Option Int)) :=
  o.map (fun r => peerKeepalives r.peers)

/-- Cross-field and bound constraints of the AmneziaWG settings, written
from the specification: pairwise-distinct defined H values, S/J bounds, the
`S1+56 ≠ S2` and `Jmin < Jmax` relations, hex-only I strings. -/
@[reducible] def amneziaGood (a : AmneziaWGSettings) : Prop :=
  (hVals a).Nodup
    ∧ (∀ v ∈ hVals a, 0 ≤ v ∧ v ≤ 2147483647)
    ∧ optHolds (fun s1 => 0 < s1 ∧ s1 ≤ 1132) a.S1
    ∧ optHolds (fun s2 => 0 < s2 ∧ s2 ≤ 1188) a.S2
    ∧ optHolds (fun s1 => optHolds (fun s2 => s1 + 56 ≠ s2) a.S2) a.S1
    ∧ optHolds (fun jc => 0 ≤ jc ∧ jc ≤ 128) a.Jc
    ∧ optHolds (fun jmin => jmin < 1280) a.Jmin
    ∧ optHolds (fun jmax => jmax ≤ 1280) a.Jmax
    ∧ optHolds (fun jmin => optHolds (fun jmax => jmin < jmax) a.Jmax) a.Jmin
    ∧ (∀ o ∈ [a.I1, a.I2, a.I3, a.I4, a.I5],
        optHolds (fun s => s.all isHexDigitB = true) o)

/-- Concrete key-derivation stand-in used by closed counterexamples and
witnesses (any function works: the claims hold or fail uniformly in `gpk`). -/
def gpk0 : Str → Str := fun s => str ("PK-") ++ s

def settingsE : Settings := {}

/-- C1 counterexample input: a peer whose stored `persistentKeepalive` is the
legitimate value `0`, which generation suppresses. -/
def cfgKA0 : WireGuardConfig :=
  { iface := { privateKey := str ("KEY"), address := [str ("10.0.0.1/24")] }
    peers := [{ publicKey := str ("PUB")
                allowedIPs := [str ("10.0.0.2/32")]
                persistentKeepalive := some 0 }] }

/-- C2 counterexample inputs: two configs with distinct ids but identical
private keys (hence identical derived public keys). -/
def cfgOwnA : WireGuardConfig :=
  { id := str ("1"), iface := { privateKey := str ("k") }, peers := []
    enableAllPeers := some true }

def cfgOwnB : WireGuardConfig :=
  { id := str ("2"), iface := { privateKey := str ("k") }, peers := [] }

def allOwn : List (Str × WireGuardConfig) := [(str ("1"), cfgOwnA), (str ("2"), cfgOwnB)]

/-- C1 witness input: a config exercising every emitted interface and peer
field. -/
def cfgW : WireGuardConfig :=
  { id := str ("w")
    iface := { privateKey := str ("KEY=")
               address := [str ("10.0.0.1/24"), str ("fd00::1/64")]
               listenPort := some 51820
               dns := [str ("1.1.1.1")]
               endpoint := some (str ("vpn.example.com:51820"))
               postUp := some (str ("echo up"))
               postDown := some (str ("echo down")) }
    peers := [{ publicKey := str ("PUB")
                allowedIPs := [str ("10.0.0.2/32")]
                endpoint := some (str ("peer.example.com:51820"))
                persistentKeepalive := some 25
                presharedKey := some (str ("PSK")) }] }

def settingsW : Settings := { mtu := some 1380 }

/-- C9 witness input satisfying every AmneziaWG constraint. -/
def amzW : AmneziaWGSettings :=
  { enabled := some true
    H1 := some 1, H2 := some 2, H3 := some 3, H4 := some 4
    S1 := some 50, S2 := some 100
    Jc := some 4, Jmin := some 8, Jmax := some 80
    I1 := some (str ("a0ff")) }

/-- C2 witness input: a third config with a genuinely different private key,
so one synthesized peer is emitted for it. -/
def cfgOwnC : WireGuardConfig :=
  { id := str ("3")
    iface := { privateKey := str ("j"), address := [str ("10.0.0.3/24")] }
    peers := [] }

def allThree : List (Str × WireGuardConfig) :=
  [(str ("1"), cfgOwnA), (str ("2"), cfgOwnB), (str ("3"), cfgOwnC)]

/-! ## Basic lemmas about the string primitives -/

theorem trimL_cons_ws {c : Char} {s : Str} (h : isWS c = true) : trimL (c :: s) = trimL s := by
  simp [trimL, List.dropWhile, h]

theorem trimL_cons_nws {c : Char} {s : Str} (h : isWS c = false) : trimL (c :: s) = c :: s := by
  simp [trimL, List.dropWhile, h]

theorem headNotWS_cons {c : Char} {s : Str} : headNotWS (c :: s) ↔ isWS c = false := by
  simp [headNotWS, headNotWSB]

theorem trimL_eq_self {s : Str} (h : headNotWS s) : trimL s = s := by
  cases s with
  | nil => rfl
  | cons c t => exact trimL_cons_nws (headNotWS_cons.mp h)

theorem trimR_eq_self {s : Str} (h : lastNotWS s) : trimR s = s := by
  rcases hrev : s.reverse with _ | ⟨c, t⟩
  · have : s = [] := by simpa using congrArg List.reverse hrev
    simp [this, trimR]
  · have hlast : s.getLast? = some c := by
      rw [← List.head?_reverse, hrev]; rfl
    have hc : isWS c = false := by
      have := h; unfold lastNotWS lastNotWSB at this; rw [hlast] at this
      simpa using this
    have hs : (c :: t).reverse = s := by
      have := congrArg List.reverse hrev; simpa using this.symm
    unfold trimR
    rw [hrev, List.dropWhile_cons, hc]
    simpa using hs

theorem trim_eq_self {s : Str} (h1 : headNotWS s) (h2 : lastNotWS s) : trim s = s := by
  unfold trim
  rw [trimL_eq_self h1, trimR_eq_self h2]

theorem trim_cons_ws {c : Char} {s : Str} (h : isWS c = true) : trim (c :: s) = trim s := by
  unfold trim
  rw [trimL_cons_ws h]

theorem trim_clean {s : Str} (h : cleanStr s) : trim s = s :=
  trim_eq_self h.2.1 h.2.2

theorem lastNotWS_append {a b : Str} (hb : b ≠ []) (h : lastNotWS b) : lastNotWS (a ++ b) := by
  have he : (a ++ b).getLast? = b.getLast? := List.getLast?_append_of_ne_nil a hb
  unfold lastNotWS lastNotWSB at h ⊢
  simp only [he]
  exact h

theorem lastNotWS_cons_cons {x y : Char} {l : Str} :
    lastNotWS (x :: y :: l) ↔ lastNotWS (y :: l) := by
  unfold lastNotWS lastNotWSB
  rw [List.getLast?_cons_cons]

theorem lastNotWS_cons_of {c : Char} {s : Str} (hs : s ≠ []) (h : lastNotWS s) :
    lastNotWS (c :: s) := by
  have he : (c :: s).getLast? = s.getLast? := List.getLast?_append_of_ne_nil [c] hs
  unfold lastNotWS lastNotWSB at h ⊢
  simp only [he]
  exact h

theorem head_ne_imp_ne {a b : Str} (h : a.head? ≠ b.head?) : a ≠ b :=
  fun he => h (by rw [he])

theorem ne_of_mem_notMem {c : Char} {a b : Str} (h1 : c ∈ a) (h2 : c ∉ b) : a ≠ b :=
  fun he => h2 (he ▸ h1)

theorem breakAtFirst_eq {c : Char} {pre post : Str} (h : c ∉ pre) :
    breakAtFirst c (pre ++ c :: post) = some (pre, post) := by
  induction pre with
  | nil => simp [breakAtFirst]
  | cons x xs ih =>
    have hx : ¬ x = c := by intro he; exact h (he ▸ List.mem_cons_self x xs)
    have hxs : c ∉ xs := fun hm => h (List.mem_cons_of_mem x hm)
    simp only [List.cons_append, breakAtFirst, if_neg hx, List.append_eq, ih hxs]

theorem breakAtFirst_isSome {c : Char} {s : Str} :
    (breakAtFirst c s).isSome = true ↔ c ∈ s := by
  induction s with
  | nil => simp [breakAtFirst]
  | cons x xs ih =>
    by_cases hx : x = c
    · subst hx; simp [breakAtFirst]
    · simp only [breakAtFirst, if_neg hx]
      rcases hb : breakAtFirst c xs with _ | ⟨a, b⟩ <;>
        simp [hb] at ih ⊢ <;> simp [List.mem_cons, ih, Ne.symm hx, hx]

theorem breakAtFirst_none_iff {c : Char} {s : Str} :
    breakAtFirst c s = none ↔ c ∉ s := by
  constructor
  · intro h hm
    have := breakAtFirst_isSome.mpr hm
    rw [h] at this
    simp at this
  · intro hm
    rcases hb : breakAtFirst c s with _ | ⟨a, b⟩
    · rfl
    · exact absurd (breakAtFirst_isSome.mp (by rw [hb]; rfl)) hm

theorem splitOnC_ne_nil {c : Char} {s : Str} : splitOnC c s ≠ [] := by
  cases s with
  | nil => simp [splitOnC]
  | cons x xs =>
    simp only [splitOnC]
    split <;> simp

theorem splitOnC_not_mem {c : Char} {s : Str} (h : c ∉ s) : splitOnC c s = [s] := by
  induction s with
  | nil => rfl
  | cons x xs ih =>
    have hx : ¬ x = c := by intro he; exact h (he ▸ List.mem_cons_self x xs)
    have hxs : c ∉ xs := fun hm => h (List.mem_cons_of_mem x hm)
    simp only [splitOnC, if_neg hx, ih hxs]
    rfl

theorem splitOnC_append {c : Char} {pre post : Str} (h : c ∉ pre) :
    splitOnC c (pre ++ c :: post) = pre :: splitOnC c post := by
  induction pre with
  | nil => simp [splitOnC]
  | cons x xs ih =>
    have hx : ¬ x = c := by intro he; exact h (he ▸ List.mem_cons_self x xs)
    have hxs : c ∉ xs := fun hm => h (List.mem_cons_of_mem x hm)
    simp only [List.cons_append, splitOnC, if_neg hx, List.append_eq, ih hxs]
    rfl

theorem splitNL_joinLines {L : List Str} {tail : Str} (h : ∀ l ∈ L, '\n' ∉ l) :
    splitNL (joinLines L ++ tail) = L ++ splitNL tail := by
  induction L with
  | nil => simp [joinLines]
  | cons l L ih =>
    have hl : '\n' ∉ l := h l (List.mem_cons_self l L)
    have hL : ∀ x ∈ L, '\n' ∉ x := fun x hx => h x (List.mem_cons_of_mem l hx)
    have hjoin : joinLines (l :: L) = l ++ '\n' :: joinLines L := by
      simp [joinLines]
    rw [hjoin, List.append_assoc]
    show splitOnC '\n' (l ++ '\n' :: (joinLines L ++ tail)) = _
    rw [splitOnC_append hl]
    rw [show splitOnC '\n' (joinLines L ++ tail) = splitNL (joinLines L ++ tail) from rfl, ih hL]
    rfl

theorem headNotWS_append {a b : Str} (ha : a ≠ []) (h : headNotWS a) : headNotWS (a ++ b) := by
  cases a with
  | nil => exact absurd rfl ha
  | cons c t =>
    rw [List.cons_append, headNotWS_cons]
    exact headNotWS_cons.mp h

theorem trim_kv {k v : Str} (hk0 : k ≠ []) (hk1 : headNotWS k)
    (hv1 : headNotWS v) (hv2 : lastNotWS v) :
    trim (k ++ '=' :: ' ' :: v) = k ++ '=' :: (if v = [] then [] else ' ' :: v) := by
  by_cases hv : v = []
  · subst hv
    simp only [if_pos rfl]
    unfold trim
    rw [trimL_eq_self (headNotWS_append hk0 hk1)]
    unfold trimR
    have hrev : (k ++ '=' :: ' ' :: ([] : Str)).reverse = ' ' :: '=' :: k.reverse := by simp
    rw [hrev, List.dropWhile_cons, if_pos (by decide : isWS ' ' = true),
        List.dropWhile_cons, if_neg (by simp [isWS])]
    simp
  · rw [if_neg hv]
    have hlast : lastNotWS (k ++ '=' :: ' ' :: v) := by
      apply lastNotWS_append (by simp)
      rw [lastNotWS_cons_cons]
      cases v with
      | nil => exact absurd rfl hv
      | cons a t => rw [lastNotWS_cons_cons]; exact hv2
    unfold trim
    rw [trimL_eq_self (headNotWS_append hk0 hk1)]
    exact trimR_eq_self hlast

theorem trim_val {v : Str} (hv1 : headNotWS v) (hv2 : lastNotWS v) :
    trim (if v = [] then [] else ' ' :: v) = v := by
  by_cases hv : v = []
  · simp [hv]; rfl
  · rw [if_neg hv, trim_cons_ws (by simp [isWS]), trim_eq_self hv1 hv2]

theorem runLines_append {st : PState} {xs ys : List Str} :
    runLines st (xs ++ ys)
      = match runLines st xs with
        | some st2 => runLines st2 ys
        | none => none := by
  induction xs generalizing st with
  | nil => simp [runLines]
  | cons l ls ih =>
    simp only [List.cons_append, runLines]
    rcases processLine st l with _ | st2
    · rfl
    · exact ih

theorem jsReplaceNewlines_id {s : Str} (h : '\n' ∉ s) : jsReplaceNewlines s = s := by
  induction s with
  | nil => rfl
  | cons c t ih =>
    have hc : c ≠ '\n' := by intro he; exact h (he ▸ List.mem_cons_self c t)
    have ht : '\n' ∉ t := fun hm => h (List.mem_cons_of_mem c hm)
    rw [jsReplaceNewlines.eq_def]
    split
    · rename_i heq
      exact absurd heq (by simp)
    · rename_i rest heq
      rw [List.cons.injEq] at heq
      exact absurd (heq.2 ▸ List.mem_cons_self '\n' rest) ht
    · rename_i rest heq
      rw [List.cons.injEq] at heq
      exact absurd heq.1 hc
    · rename_i heq
      rw [List.cons.injEq] at heq
      rw [← heq.1, ← heq.2, ih ht]

/-! ## Lemmas about decimal rendering and `parseInt` -/

theorem natToStrAux_succ (fuel n : Nat) (acc : Str) :
    natToStrAux (fuel + 1) n acc
      = if n < 10 then digitChar n :: acc
        else natToStrAux fuel (n / 10) (digitChar (n % 10) :: acc) := rfl

theorem digitChar_isDigit (d : Nat) : (digitChar d).isDigit = true := by
  unfold digitChar
  split <;> try decide
  split <;> try decide
  split <;> try decide
  split <;> try decide
  split <;> try decide
  split <;> try decide
  split <;> try decide
  split <;> try decide
  split <;> decide

theorem digitVal_digitChar {d : Nat} (h : d < 10) : digitVal (digitChar d) = d := by
  interval_cases d <;> decide

theorem natToStrAux_acc (fuel : Nat) :
    ∀ (n : Nat) (acc : Str), natToStrAux fuel n acc = natToStrAux fuel n [] ++ acc := by
  induction fuel with
  | zero => intro n acc; simp [natToStrAux]
  | succ fuel ih =>
    intro n acc
    simp only [natToStrAux]
    by_cases h : n < 10
    · simp [h]
    · rw [if_neg h, if_neg h, ih (n / 10) (digitChar (n % 10) :: acc),
          ih (n / 10) [digitChar (n % 10)]]
      simp

theorem natToStrAux_fuel {f1 f2 n : Nat} (h1 : n < f1) (h2 : n < f2) :
    natToStrAux f1 n [] = natToStrAux f2 n [] := by
  induction n using Nat.strong_induction_on generalizing f1 f2 with
  | _ n ih =>
    rcases f1 with _ | g1
    · omega
    rcases f2 with _ | g2
    · omega
    rw [natToStrAux_succ, natToStrAux_succ]
    by_cases hlt : n < 10
    · simp [hlt]
    · rw [if_neg hlt, if_neg hlt, natToStrAux_acc g1, natToStrAux_acc g2]
      have hdiv : n / 10 < n := Nat.div_lt_self (by omega) (by omega)
      rw [@ih (n / 10) hdiv g1 g2 (by omega) (by omega)]

theorem natToStr_lt10 {n : Nat} (h : n < 10) : natToStr n = [digitChar n] := by
  simp [natToStr, natToStrAux, h]

theorem natToStr_ge10 {n : Nat} (h : 10 ≤ n) :
    natToStr n = natToStr (n / 10) ++ [digitChar (n % 10)] := by
  unfold natToStr
  have hdiv : n / 10 < n := Nat.div_lt_self (by omega) (by omega)
  rw [natToStrAux_succ, if_neg (by omega : ¬ n < 10),
      natToStrAux_acc n (n / 10) [digitChar (n % 10)]]
  rw [natToStrAux_fuel (show n / 10 < n by omega) (show n / 10 < n / 10 + 1 by omega)]

theorem natToStr_all_digits (n : Nat) : ∀ c ∈ natToStr n, c.isDigit = true := by
  induction n using Nat.strong_induction_on with
  | _ n ih =>
    by_cases h : n < 10
    · rw [natToStr_lt10 h]
      intro c hc
      simp at hc
      rw [hc]
      exact digitChar_isDigit n
    · rw [natToStr_ge10 (by omega)]
      intro c hc
      rcases List.mem_append.mp hc with hm | hm
      · exact ih (n / 10) (Nat.div_lt_self (by omega) (by omega)) c hm
      · simp at hm
        rw [hm]
        exact digitChar_isDigit (n % 10)

theorem natToStr_ne_nil (n : Nat) : natToStr n ≠ [] := by
  by_cases h : n < 10
  · rw [natToStr_lt10 h]; simp
  · rw [natToStr_ge10 (by omega)]; simp

theorem decDigitsVal_append_one (a : Str) (c : Char) :
    decDigitsVal (a ++ [c]) = 10 * decDigitsVal a + digitVal c := by
  simp [decDigitsVal, List.foldl_append]

theorem decDigitsVal_natToStr (n : Nat) : decDigitsVal (natToStr n) = n := by
  induction n using Nat.strong_induction_on with
  | _ n ih =>
    by_cases h : n < 10
    · rw [natToStr_lt10 h]
      simp [decDigitsVal, digitVal_digitChar h]
    · rw [natToStr_ge10 (by omega), decDigitsVal_append_one,
          ih (n / 10) (Nat.div_lt_self (by omega) (by omega)),
          digitVal_digitChar (Nat.mod_lt n (by omega))]
      omega

theorem natToStr_head_ne_zero {n : Nat} (h : 1 ≤ n) : (natToStr n).head? ≠ some '0' := by
  induction n using Nat.strong_induction_on with
  | _ n ih =>
    by_cases hlt : n < 10
    · rw [natToStr_lt10 hlt]
      interval_cases n <;> decide
    · rw [natToStr_ge10 (by omega)]
      have hne := natToStr_ne_nil (n / 10)
      rcases hh : natToStr (n / 10) with _ | ⟨d, t⟩
      · exact absurd hh hne
      · have : (natToStr (n / 10)).head? ≠ some '0' :=
          ih (n / 10) (Nat.div_lt_self (by omega) (by omega))
            (Nat.one_le_div_iff (by omega) |>.mpr (by omega))
        rw [hh] at this
        simpa using this

theorem takeWhile_all {p : Char → Bool} {l : Str} (h : ∀ c ∈ l, p c = true) :
    l.takeWhile p = l := by
  induction l with
  | nil => rfl
  | cons c t ih =>
    rw [List.takeWhile_cons, if_pos (h c (List.mem_cons_self c t))]
    rw [ih (fun x hx => h x (List.mem_cons_of_mem c hx))]

theorem parseIntNoSign_natToStr (n : Nat) : parseIntNoSign (natToStr n) = some n := by
  have hall := natToStr_all_digits n
  have htake : (natToStr n).takeWhile Char.isDigit = natToStr n := takeWhile_all hall
  rw [parseIntNoSign.eq_def]
  split
  · rename_i x rest heq
    by_cases hn1 : 1 ≤ n
    · exact absurd (by rw [heq]; rfl) (natToStr_head_ne_zero hn1)
    · have : n = 0 := by omega
      subst this
      rw [natToStr_lt10 (by omega)] at heq
      simp at heq
  · rename_i hne
    rw [htake, if_neg (natToStr_ne_nil n), decDigitsVal_natToStr]

theorem isWS_eq_false_of_isDigit {c : Char} (h : c.isDigit = true) : isWS c = false := by
  cases hws : isWS c
  · rfl
  · exfalso
    unfold isWS at hws
    simp only [Bool.or_eq_true, decide_eq_true_eq] at hws
    rcases hws with ((((he | he) | he) | he) | he) | he <;> subst he <;> revert h <;> decide

theorem ne_nl_of_isDigit {c : Char} (h : c.isDigit = true) : c ≠ '\n' := by
  intro he; subst he; revert h; decide

theorem natToStr_clean (n : Nat) : cleanStr (natToStr n) := by
  have hall := natToStr_all_digits n
  refine ⟨fun hm => ?_, ?_, ?_⟩
  · exact absurd rfl (ne_nl_of_isDigit (hall '\n' hm))
  · unfold headNotWS headNotWSB
    rcases hh : (natToStr n).head? with _ | c
    · rfl
    · simp [isWS_eq_false_of_isDigit (hall c (List.mem_of_mem_head? hh))]
  · unfold lastNotWS lastNotWSB
    rcases hh : (natToStr n).getLast? with _ | c
    · rfl
    · simp [isWS_eq_false_of_isDigit (hall c (List.mem_of_mem_getLast? hh))]

theorem intToStr_clean (n : Int) : cleanStr (intToStr n) := by
  unfold intToStr
  by_cases h : n < 0
  · rw [if_pos h]
    obtain ⟨h1, h2, h3⟩ := natToStr_clean (-n).toNat
    refine ⟨?_, ?_, ?_⟩
    · intro hm
      rcases List.mem_cons.mp hm with he | hm2
      · exact absurd he.symm (by decide)
      · exact h1 hm2
    · rw [headNotWS_cons]; decide
    · exact lastNotWS_cons_of (natToStr_ne_nil _) h3
  · rw [if_neg h]
    exact natToStr_clean n.toNat

theorem jsParseInt_natToStr (n : Nat) : jsParseInt (natToStr n) = some n := by
  unfold jsParseInt
  have hstable : trimL (natToStr n) = natToStr n := trimL_eq_self (natToStr_clean n).2.1
  rw [hstable]
  have hall := natToStr_all_digits n
  rcases hh : natToStr n with _ | ⟨d, t⟩
  · exact absurd hh (natToStr_ne_nil n)
  · have hd : d.isDigit = true := hall d (by rw [hh]; exact List.mem_cons_self d t)
    have hdm : d ≠ '-' := by intro he; subst he; revert hd; decide
    have hdp : d ≠ '+' := by intro he; subst he; revert hd; decide
    have hrw : parseIntNoSign (d :: t) = some n := by
      rw [← hh]; exact parseIntNoSign_natToStr n
    split
    · rename_i rest heq
      exact absurd (List.cons.injEq .. |>.mp heq).1 hdm
    · rename_i rest heq
      exact absurd (List.cons.injEq .. |>.mp heq).1 hdp
    · rw [hrw]
      rfl

theorem jsParseInt_intToStr (n : Int) : jsParseInt (intToStr n) = some n := by
  unfold intToStr
  by_cases h : n < 0
  · rw [if_pos h]
    unfold jsParseInt
    rw [trimL_cons_nws (by decide)]
    split
    · rename_i rest heq
      have hrest : natToStr (-n).toNat = rest := (List.cons.injEq .. |>.mp heq).2
      rw [← hrest, parseIntNoSign_natToStr]
      have hcast : (((-n).toNat : Nat) : Int) = -n := Int.toNat_of_nonneg (by omega)
      exact congrArg some (show -(((-n).toNat : Nat) : Int) = n by rw [hcast]; omega)
    · rename_i rest heq
      exact absurd (List.cons.injEq .. |>.mp heq).1 (by decide)
    · rename_i hg1 hg2
      exact (hg1 (natToStr (-n).toNat) rfl).elim
  · rw [if_neg h, jsParseInt_natToStr]
    exact congrArg some (Int.toNat_of_nonneg (by omega))

/-! ## Step lemmas for the parser loop -/

theorem dropWhile_append_last_nws {p : Char → Bool} {a : Str} {c : Char} (hc : p c = false) :
    (a ++ [c]).dropWhile p = a.dropWhile p ++ [c] := by
  induction a with
  | nil => simp [List.dropWhile, hc]
  | cons x xs ih =>
    by_cases hx : p x = true
    · simp only [List.cons_append, List.dropWhile_cons, hx, if_pos rfl, ih]
      simp [hx]
    · simp only [Bool.not_eq_true] at hx
      simp [List.dropWhile_cons, hx]

theorem trim_cons_head {c : Char} {s : Str} (hc : isWS c = false) :
    trim (c :: s) = c :: trimR s := by
  unfold trim
  rw [trimL_cons_nws hc]
  unfold trimR
  rw [List.reverse_cons, dropWhile_append_last_nws (by simp [hc])]
  simp

theorem head_cons_ne {c : Char} {a : Str} {b : Str} (h : b.head? ≠ some c) : (c :: a) ≠ b := by
  intro he
  exact h (by rw [← he]; rfl)

theorem applyInterfaceKV_hash (i : InterfaceConfig) {key : Str} (v : Str)
    (h : key.head? = some '#') : applyInterfaceKV i key v = i := by
  obtain ⟨rest, rfl⟩ : ∃ rest, key = '#' :: rest := by
    cases key with
    | nil => simp at h
    | cons c t =>
      simp at h
      exact ⟨t, by rw [h]⟩
  unfold applyInterfaceKV
  rw [if_neg (head_cons_ne (by decide)), if_neg (head_cons_ne (by decide)),
      if_neg (head_cons_ne (by decide)), if_neg (head_cons_ne (by decide)),
      if_neg (head_cons_ne (by decide)), if_neg (head_cons_ne (by decide)),
      if_neg (head_cons_ne (by decide))]

theorem applyPeerKV_hash (p : PeerConfig) {key : Str} (v : Str)
    (h : key.head? = some '#') : applyPeerKV p key v = some p := by
  obtain ⟨rest, rfl⟩ : ∃ rest, key = '#' :: rest := by
    cases key with
    | nil => simp at h
    | cons c t =>
      simp at h
      exact ⟨t, by rw [h]⟩
  unfold applyPeerKV
  rw [if_neg (head_cons_ne (by decide)), if_neg (head_cons_ne (by decide)),
      if_neg (head_cons_ne (by decide)), if_neg (head_cons_ne (by decide)),
      if_neg (head_cons_ne (by decide))]

theorem processLine_nil (st : PState) : processLine st [] = some st := rfl

theorem processLine_ifaceHeader (st : PState) :
    processLine st (str ("[Interface]")) = some { st with sec := Sect.iface } := by
  have h1 : ¬ str ("[Interface]") = ([] : Str) := by decide
  have h2 : (str ("[Interface]")).head? ≠ some '#' := by decide
  have hcmt : ¬ ((str ("[Interface]")).head? = some '#' ∧ st.sec = Sect.iface) :=
    fun hq => h2 hq.1
  unfold processLine
  rw [if_neg h1, if_neg hcmt, if_pos rfl]

theorem processLine_peerHeader (st : PState) :
    processLine st (str ("[Peer]"))
      = some { st with
                sec := Sect.peer
                peers := st.peers ++ st.cur.toList
                cur := some emptyPeer } := by
  have h1 : ¬ str ("[Peer]") = ([] : Str) := by decide
  have h2 : (str ("[Peer]")).head? ≠ some '#' := by decide
  have hcmt : ¬ ((str ("[Peer]")).head? = some '#' ∧ st.sec = Sect.iface) :=
    fun hq => h2 hq.1
  have h3 : ¬ str ("[Peer]") = str ("[Interface]") := by decide
  unfold processLine
  rw [if_neg h1, if_neg hcmt, if_neg h3, if_pos rfl]

theorem head_append_eq_ne {k post : Str} (hkh : k.head? ≠ some '#') :
    (k ++ '=' :: post).head? ≠ some '#' := by
  cases k with
  | nil => simp
  | cons c kt =>
    simp at hkh ⊢
    exact hkh

theorem processLine_iface_eqline (st : PState) (hsec : st.sec = Sect.iface) (k post : Str)
    (hk : '=' ∉ k) (hkh : k.head? ≠ some '#') :
    processLine st (k ++ '=' :: post)
      = some { st with iface := applyInterfaceKV st.iface (lower (trim k)) (trim post) } := by
  have hne : k ++ '=' :: post ≠ [] := by simp
  have hmem : '=' ∈ k ++ '=' :: post := by simp
  have hInt : ¬ k ++ '=' :: post = str ("[Interface]") :=
    ne_of_mem_notMem hmem (by decide)
  have hPeer : ¬ k ++ '=' :: post = str ("[Peer]") :=
    ne_of_mem_notMem hmem (by decide)
  have hbreak : breakAtFirst '=' (k ++ '=' :: post) = some (k, post) := breakAtFirst_eq hk
  have hcmt : ¬ ((k ++ '=' :: post).head? = some '#' ∧ st.sec = Sect.iface) :=
    fun hq => head_append_eq_ne hkh hq.1
  unfold processLine
  rw [if_neg hne, if_neg hcmt, if_neg hInt, if_neg hPeer]
  simp only [hsec, hbreak]

theorem processLine_peer_eqline (st : PState) (hsec : st.sec = Sect.peer) {p : PeerConfig}
    (hcur : st.cur = some p) (k post : Str)
    (hk : '=' ∉ k) :
    processLine st (k ++ '=' :: post)
      = (applyPeerKV p (lower (trim k)) (trim post)).map (fun q => { st with cur := some q }) := by
  have hne : k ++ '=' :: post ≠ [] := by simp
  have hmem : '=' ∈ k ++ '=' :: post := by simp
  have hInt : ¬ k ++ '=' :: post = str ("[Interface]") :=
    ne_of_mem_notMem hmem (by decide)
  have hPeer : ¬ k ++ '=' :: post = str ("[Peer]") :=
    ne_of_mem_notMem hmem (by decide)
  have hbreak : breakAtFirst '=' (k ++ '=' :: post) = some (k, post) := breakAtFirst_eq hk
  have hcmt : ¬ ((k ++ '=' :: post).head? = some '#' ∧ st.sec = Sect.iface) := by
    rintro ⟨_, h2⟩
    rw [hsec] at h2
    exact absurd h2 (by decide)
  unfold processLine
  rw [if_neg hne, if_neg hcmt, if_neg hInt, if_neg hPeer]
  simp only [hsec, hbreak, hcur]

theorem processLine_iface_comment (st : PState) (hsec : st.sec = Sect.iface) (k post : Str)
    (hk : '=' ∉ k) :
    processLine st (('#' :: k) ++ '=' :: post)
      = some (if lower (trim k) = str ("endpoint")
              then { st with iface := { st.iface with endpoint := some (trim post) } }
              else st) := by
  have hne : ('#' :: k) ++ '=' :: post ≠ [] := by simp
  have hmem : '=' ∈ ('#' :: k) ++ '=' :: post := by simp
  have hInt : ¬ ('#' :: k) ++ '=' :: post = str ("[Interface]") :=
    ne_of_mem_notMem hmem (by decide)
  have hPeer : ¬ ('#' :: k) ++ '=' :: post = str ("[Peer]") :=
    ne_of_mem_notMem hmem (by decide)
  have hk2 : '=' ∉ '#' :: k := by
    intro hm
    rcases List.mem_cons.mp hm with he | hm2
    · exact absurd he (by decide)
    · exact hk hm2
  have hbreak : breakAtFirst '=' (('#' :: k) ++ '=' :: post) = some ('#' :: k, post) :=
    breakAtFirst_eq hk2
  have hhead : (('#' :: k) ++ '=' :: post).head? = some '#' ∧ st.sec = Sect.iface :=
    ⟨rfl, hsec⟩
  have hkey : ∀ i : InterfaceConfig,
      applyInterfaceKV i (lower (trim ('#' :: k))) (trim post) = i := by
    intro i
    apply applyInterfaceKV_hash
    rw [trim_cons_head (by decide)]
    rfl
  unfold processLine
  rw [if_neg hne, if_pos hhead]
  simp only [hbreak, List.drop_succ_cons, List.drop_zero]
  by_cases hcmt : lower (trim k) = str ("endpoint")
  · rw [if_pos hcmt, if_neg hInt, if_neg hPeer]
    simp [hsec, hkey]
  · rw [if_neg hcmt, if_neg hInt, if_neg hPeer]
    simp [hsec, hkey]
    rw [← hsec]

theorem processLine_trim_iface_kv (st : PState) (hsec : st.sec = Sect.iface) (k v : Str)
    (hk0 : k ≠ []) (hk1 : headNotWS k) (hkh : k.head? ≠ some '#') (hk : '=' ∉ k)
    (hv1 : headNotWS v) (hv2 : lastNotWS v) :
    processLine st (trim (k ++ '=' :: ' ' :: v))
      = some { st with iface := applyInterfaceKV st.iface (lower (trim k)) v } := by
  rw [trim_kv hk0 hk1 hv1 hv2, processLine_iface_eqline st hsec k _ hk hkh,
      trim_val hv1 hv2]

theorem processLine_trim_peer_kv (st : PState) (hsec : st.sec = Sect.peer) {p : PeerConfig}
    (hcur : st.cur = some p) (k v : Str)
    (hk0 : k ≠ []) (hk1 : headNotWS k) (hk : '=' ∉ k)
    (hv1 : headNotWS v) (hv2 : lastNotWS v) :
    processLine st (trim (k ++ '=' :: ' ' :: v))
      = (applyPeerKV p (lower (trim k)) v).map (fun q => { st with cur := some q }) := by
  rw [trim_kv hk0 hk1 hv1 hv2, processLine_peer_eqline st hsec hcur k _ hk,
      trim_val hv1 hv2]

theorem stepPrivateKey (st : PState) (hsec : st.sec = Sect.iface) (v : Str) (hv : cleanStr v) :
    processLine st (trim (str ("PrivateKey = ") ++ v))
      = some { st with iface := { st.iface with privateKey := v } } := by
  rw [show str ("PrivateKey = ") ++ v = str ("PrivateKey ") ++ '=' :: ' ' :: v from rfl,
      processLine_trim_iface_kv st hsec _ v (by decide) (by decide) (by decide) (by decide)
        hv.2.1 hv.2.2]
  rfl

theorem stepPubComment (st : PState) (hsec : st.sec = Sect.iface) (g : Str) (hg : cleanStr g) :
    processLine st (trim (str ("# PublicKey = ") ++ g)) = some st := by
  rw [show str ("# PublicKey = ") ++ g = ('#' :: str (" PublicKey ")) ++ '=' :: ' ' :: g from rfl,
      trim_kv (by decide) (by decide) hg.2.1 hg.2.2]
  rw [show ('#' :: str (" PublicKey ")) ++ '=' :: (if g = [] then [] else ' ' :: g)
        = ('#' :: str (" PublicKey ")) ++ '=' :: (if g = [] then [] else ' ' :: g) from rfl,
      processLine_iface_comment st hsec _ _ (by decide)]
  rw [if_neg (by decide)]

theorem stepEndpointComment (st : PState) (hsec : st.sec = Sect.iface) (e : Str)
    (he : e ≠ [] ∧ cleanStr e) :
    processLine st (trim (str ("# Endpoint = ") ++ e))
      = some { st with iface := { st.iface with endpoint := some e } } := by
  rw [show str ("# Endpoint = ") ++ e = ('#' :: str (" Endpoint ")) ++ '=' :: ' ' :: e from rfl,
      trim_kv (by decide) (by decide) he.2.2.1 he.2.2.2,
      processLine_iface_comment st hsec _ _ (by decide)]
  rw [if_pos (by decide), trim_val he.2.2.1 he.2.2.2]

theorem joinComma_cons_cons (x y : Str) (rest : List Str) :
    joinComma (x :: y :: rest) = x ++ ',' :: ' ' :: joinComma (y :: rest) := by
  simp [joinComma]

theorem joinComma_head {l : List Str} (hl : ∀ e ∈ l, cleanItem e) (hne : l ≠ []) :
    headNotWS (joinComma l) ∧ lastNotWS (joinComma l) ∧ joinComma l ≠ [] := by
  induction l with
  | nil => exact absurd rfl hne
  | cons x xs ih =>
    have hx := hl x (List.mem_cons_self x xs)
    cases xs with
    | nil =>
      refine ⟨?_, ?_, by simpa [joinComma] using hx.1⟩
      · show headNotWS (joinComma [x])
        simp only [joinComma, List.flatMap_nil, List.append_nil]
        exact hx.2.2.2.1
      · simp only [joinComma, List.flatMap_nil, List.append_nil]
        exact hx.2.2.2.2
    | cons y ys =>
      have hrec := ih (fun e he => hl e (List.mem_cons_of_mem x he)) (by simp)
      rw [joinComma_cons_cons]
      refine ⟨headNotWS_append hx.1 hx.2.2.2.1, ?_, by simp⟩
      apply lastNotWS_append (by simp)
      rw [lastNotWS_cons_cons]
      exact lastNotWS_cons_of hrec.2.2 hrec.2.1

theorem mapTrim_splitOnC_ws_cons {c : Char} {j : Str} (hc : isWS c = true) (hcc : ¬ c = ',') :
    (splitOnC ',' (c :: j)).map trim = (splitOnC ',' j).map trim := by
  rcases hr : splitOnC ',' j with _ | ⟨r0, rt⟩
  · exact absurd hr splitOnC_ne_nil
  · simp only [splitOnC, if_neg hcc, hr]
    simp [trim_cons_ws hc]

theorem splitTrim_joinComma {l : List Str} (hl : ∀ e ∈ l, cleanItem e) (hne : l ≠ []) :
    (splitOnC ',' (joinComma l)).map trim = l := by
  induction l with
  | nil => exact absurd rfl hne
  | cons x xs ih =>
    have hx := hl x (List.mem_cons_self x xs)
    have htx : trim x = x := trim_eq_self hx.2.2.2.1 hx.2.2.2.2
    cases xs with
    | nil =>
      show (splitOnC ',' (joinComma [x])).map trim = [x]
      simp only [joinComma, List.flatMap_nil, List.append_nil]
      rw [splitOnC_not_mem hx.2.1]
      simp [htx]
    | cons y ys =>
      have hrec := ih (fun e he => hl e (List.mem_cons_of_mem x he)) (by simp)
      rw [joinComma_cons_cons, splitOnC_append hx.2.1]
      rw [List.map_cons, htx,
          mapTrim_splitOnC_ws_cons (by decide) (by decide), hrec]

theorem mapSemi_id {s : Str} (h : ';' ∉ s) :
    s.map (fun c => if c = ';' then '\n' else c) = s := by
  induction s with
  | nil => rfl
  | cons c t ih =>
    have hc : ¬ c = ';' := fun he => h (he ▸ List.mem_cons_self c t)
    rw [List.map_cons, if_neg hc, ih (fun hm => h (List.mem_cons_of_mem c hm))]

theorem stepAddress (st : PState) (hsec : st.sec = Sect.iface) (l : List Str)
    (hl : ∀ e ∈ l, cleanItem e) (hne : l ≠ []) :
    processLine st (trim (str ("Address = ") ++ joinComma l))
      = some { st with iface := { st.iface with address := l } } := by
  obtain ⟨h1, h2, h3⟩ := joinComma_head hl hne
  rw [show str ("Address = ") ++ joinComma l = str ("Address ") ++ '=' :: ' ' :: joinComma l
        from rfl,
      processLine_trim_iface_kv st hsec _ _ (by decide) (by decide) (by decide) (by decide) h1 h2,
      show lower (trim (str ("Address "))) = str ("address") from by decide]
  unfold applyInterfaceKV
  rw [if_neg (by decide), if_pos rfl, splitTrim_joinComma hl hne]

theorem stepListenPort (st : PState) (hsec : st.sec = Sect.iface) (n : Int) :
    processLine st (trim (str ("ListenPort = ") ++ intToStr n))
      = some { st with iface := { st.iface with listenPort := some n } } := by
  have hc := intToStr_clean n
  rw [show str ("ListenPort = ") ++ intToStr n = str ("ListenPort ") ++ '=' :: ' ' :: intToStr n
        from rfl,
      processLine_trim_iface_kv st hsec _ _ (by decide) (by decide) (by decide) (by decide)
        hc.2.1 hc.2.2,
      show lower (trim (str ("ListenPort "))) = str ("listenport") from by decide]
  unfold applyInterfaceKV
  rw [if_neg (by decide), if_neg (by decide), if_pos rfl, jsParseInt_intToStr]

theorem stepDNS (st : PState) (hsec : st.sec = Sect.iface) (l : List Str)
    (hl : ∀ e ∈ l, cleanItem e) (hne : l ≠ []) :
    processLine st (trim (str ("DNS = ") ++ joinComma l))
      = some { st with iface := { st.iface with dns := l } } := by
  obtain ⟨h1, h2, h3⟩ := joinComma_head hl hne
  rw [show str ("DNS = ") ++ joinComma l = str ("DNS ") ++ '=' :: ' ' :: joinComma l from rfl,
      processLine_trim_iface_kv st hsec _ _ (by decide) (by decide) (by decide) (by decide) h1 h2,
      show lower (trim (str ("DNS "))) = str ("dns") from by decide]
  unfold applyInterfaceKV
  rw [if_neg (by decide), if_neg (by decide), if_neg (by decide), if_pos rfl,
      splitTrim_joinComma hl hne]

theorem stepMTU (st : PState) (hsec : st.sec = Sect.iface) (m : Int) :
    processLine st (trim (str ("MTU = ") ++ intToStr m)) = some st := by
  have hc := intToStr_clean m
  rw [show str ("MTU = ") ++ intToStr m = str ("MTU ") ++ '=' :: ' ' :: intToStr m from rfl,
      processLine_trim_iface_kv st hsec _ _ (by decide) (by decide) (by decide) (by decide)
        hc.2.1 hc.2.2,
      show lower (trim (str ("MTU "))) = str ("mtu") from by decide]
  unfold applyInterfaceKV
  rw [if_neg (by decide), if_neg (by decide), if_neg (by decide), if_neg (by decide), if_pos rfl]

theorem stepPostUp (st : PState) (hsec : st.sec = Sect.iface) (s : Str)
    (hs : s ≠ [] ∧ ';' ∉ s ∧ cleanStr s) :
    processLine st (trim (str ("PostUp = ") ++ jsReplaceNewlines s))
      = some { st with iface := { st.iface with postUp := some s } } := by
  rw [jsReplaceNewlines_id hs.2.2.1,
      show str ("PostUp = ") ++ s = str ("PostUp ") ++ '=' :: ' ' :: s from rfl,
      processLine_trim_iface_kv st hsec _ _ (by decide) (by decide) (by decide) (by decide)
        hs.2.2.2.1 hs.2.2.2.2,
      show lower (trim (str ("PostUp "))) = str ("postup") from by decide]
  unfold applyInterfaceKV
  rw [if_neg (by decide), if_neg (by decide), if_neg (by decide), if_neg (by decide),
      if_neg (by decide), if_pos rfl, mapSemi_id hs.2.1]

theorem stepPostDown (st : PState) (hsec : st.sec = Sect.iface) (s : Str)
    (hs : s ≠ [] ∧ ';' ∉ s ∧ cleanStr s) :
    processLine st (trim (str ("PostDown = ") ++ jsReplaceNewlines s))
      = some { st with iface := { st.iface with postDown := some s } } := by
  rw [jsReplaceNewlines_id hs.2.2.1,
      show str ("PostDown = ") ++ s = str ("PostDown ") ++ '=' :: ' ' :: s from rfl,
      processLine_trim_iface_kv st hsec _ _ (by decide) (by decide) (by decide) (by decide)
        hs.2.2.2.1 hs.2.2.2.2,
      show lower (trim (str ("PostDown "))) = str ("postdown") from by decide]
  unfold applyInterfaceKV
  rw [if_neg (by decide), if_neg (by decide), if_neg (by decide), if_neg (by decide),
      if_neg (by decide), if_neg (by decide), if_pos rfl, mapSemi_id hs.2.1]

theorem stepPeerPublicKey (st : PState) (hsec : st.sec = Sect.peer) {p : PeerConfig}
    (hcur : st.cur = some p) (v : Str) (hv : cleanStr v) :
    processLine st (trim (str ("PublicKey = ") ++ v))
      = some { st with cur := some { p with publicKey := v } } := by
  rw [show str ("PublicKey = ") ++ v = str ("PublicKey ") ++ '=' :: ' ' :: v from rfl,
      processLine_trim_peer_kv st hsec hcur _ v (by decide) (by decide) (by decide)
        hv.2.1 hv.2.2,
      show lower (trim (str ("PublicKey "))) = str ("publickey") from by decide]
  unfold applyPeerKV
  rw [if_pos rfl]
  rfl

theorem stepAllowedIPs (st : PState) (hsec : st.sec = Sect.peer) {p : PeerConfig}
    (hcur : st.cur = some p) (l : List Str)
    (hl : ∀ e ∈ l, cleanItem e) (hne : l ≠ []) :
    processLine st (trim (str ("AllowedIPs = ") ++ joinComma l))
      = some { st with cur := some { p with allowedIPs := l } } := by
  obtain ⟨h1, h2, h3⟩ := joinComma_head hl hne
  rw [show str ("AllowedIPs = ") ++ joinComma l = str ("AllowedIPs ") ++ '=' :: ' ' :: joinComma l
        from rfl,
      processLine_trim_peer_kv st hsec hcur _ _ (by decide) (by decide) (by decide) h1 h2,
      show lower (trim (str ("AllowedIPs "))) = str ("allowedips") from by decide]
  unfold applyPeerKV
  rw [if_neg (by decide), if_pos rfl, splitTrim_joinComma hl hne]
  rfl

theorem stepPeerEndpoint (st : PState) (hsec : st.sec = Sect.peer) {p : PeerConfig}
    (hcur : st.cur = some p) (e : Str) (he : e ≠ [] ∧ cleanStr e) :
    processLine st (trim (str ("Endpoint = ") ++ e))
      = some { st with cur := some { p with endpoint := some e } } := by
  rw [show str ("Endpoint = ") ++ e = str ("Endpoint ") ++ '=' :: ' ' :: e from rfl,
      processLine_trim_peer_kv st hsec hcur _ e (by decide) (by decide) (by decide)
        he.2.2.1 he.2.2.2,
      show lower (trim (str ("Endpoint "))) = str ("endpoint") from by decide]
  unfold applyPeerKV
  rw [if_neg (by decide), if_neg (by decide), if_pos rfl]
  rfl

theorem stepKeepalive (st : PState) (hsec : st.sec = Sect.peer) {p : PeerConfig}
    (hcur : st.cur = some p) (n : Int) (hn : 0 ≤ n) :
    processLine st (trim (str ("PersistentKeepalive = ") ++ intToStr n))
      = some { st with cur := some { p with persistentKeepalive := some n } } := by
  have hc := intToStr_clean n
  rw [show str ("PersistentKeepalive = ") ++ intToStr n
        = str ("PersistentKeepalive ") ++ '=' :: ' ' :: intToStr n from rfl,
      processLine_trim_peer_kv st hsec hcur _ _ (by decide) (by decide) (by decide)
        hc.2.1 hc.2.2,
      show lower (trim (str ("PersistentKeepalive "))) = str ("persistentkeepalive")
        from by decide]
  unfold applyPeerKV
  rw [if_neg (by decide), if_neg (by decide), if_neg (by decide), if_pos rfl,
      jsParseInt_intToStr]
  simp [show ¬ n < 0 by omega]

theorem stepPresharedKey (st : PState) (hsec : st.sec = Sect.peer) {p : PeerConfig}
    (hcur : st.cur = some p) (kk : Str) (hkk : kk ≠ [] ∧ cleanStr kk) :
    processLine st (trim (str ("PresharedKey = ") ++ kk))
      = some { st with cur := some { p with presharedKey := some kk } } := by
  rw [show str ("PresharedKey = ") ++ kk = str ("PresharedKey ") ++ '=' :: ' ' :: kk from rfl,
      processLine_trim_peer_kv st hsec hcur _ kk (by decide) (by decide) (by decide)
        hkk.2.2.1 hkk.2.2.2,
      show lower (trim (str ("PresharedKey "))) = str ("presharedkey") from by decide]
  unfold applyPeerKV
  rw [if_neg (by decide), if_neg (by decide), if_neg (by decide), if_neg (by decide), if_pos rfl]
  rfl

theorem runLines_cons_some {st st2 : PState} {l : Str} {ls : List Str}
    (h : processLine st l = some st2) : runLines st (l :: ls) = runLines st2 ls := by
  simp [runLines, h]

theorem runLines_chunk {st st2 : PState} {xs ys : List Str}
    (h : runLines st xs = some st2) : runLines st (xs ++ ys) = runLines st2 ys := by
  rw [runLines_append, h]

theorem opt_collapse {α : Type} (o : Option α) :
    (match o with | some x => some x | none => (none : Option α)) = o := by
  cases o <;> rfl

theorem ite_nil_collapse {α : Type} [DecidableEq α] (l : List α) :
    (if l = [] then ([] : List α) else l) = l := by
  by_cases h : l = []
  · rw [if_pos h, h]
  · rw [if_neg h]

theorem runEpChunk (st : PState) (hsec : st.sec = Sect.iface) (o : Option Str)
    (ho : cleanOptStr o) :
    runLines st ((match o with
                  | some e => if e = [] then [] else [str ("# Endpoint = ") ++ e]
                  | none => ([] : List Str)).map trim)
      = some { st with iface := { st.iface with
                endpoint := o.or st.iface.endpoint } } := by
  rcases o with _ | e
  · rfl
  · show runLines st ((if e = [] then [] else [str ("# Endpoint = ") ++ e]).map trim)
        = some { st with iface := { st.iface with endpoint := some e } }
    rw [if_neg ho.1]
    simp only [List.map_cons, List.map_nil]
    rw [runLines_cons_some (stepEndpointComment st hsec e ho)]
    rfl

theorem runAddrChunk (st : PState) (hsec : st.sec = Sect.iface) (l : List Str)
    (hl : ∀ e ∈ l, cleanItem e) :
    runLines st ((if l = [] then ([] : List Str)
                  else [str ("Address = ") ++ joinComma l]).map trim)
      = some { st with iface := { st.iface with
                address := if l = [] then st.iface.address else l } } := by
  by_cases hnil : l = []
  · rw [if_pos hnil, if_pos hnil]
    rfl
  · rw [if_neg hnil, if_neg hnil]
    simp only [List.map_cons, List.map_nil]
    rw [runLines_cons_some (stepAddress st hsec l hl hnil)]
    rfl

theorem runLpChunk (st : PState) (hsec : st.sec = Sect.iface) (o : Option Int)
    (ho : nzPort o) :
    runLines st ((match o with
                  | some n => if n = 0 then [] else [str ("ListenPort = ") ++ intToStr n]
                  | none => ([] : List Str)).map trim)
      = some { st with iface := { st.iface with
                listenPort := o.or st.iface.listenPort } } := by
  rcases o with _ | n
  · rfl
  · show runLines st ((if n = 0 then [] else [str ("ListenPort = ") ++ intToStr n]).map trim)
        = some { st with iface := { st.iface with listenPort := some n } }
    rw [if_neg ho]
    simp only [List.map_cons, List.map_nil]
    rw [runLines_cons_some (stepListenPort st hsec n)]
    rfl

theorem runDnsChunk (st : PState) (hsec : st.sec = Sect.iface) (l : List Str)
    (hl : ∀ e ∈ l, cleanItem e) :
    runLines st ((if l = [] then ([] : List Str) else [str ("DNS = ") ++ joinComma l]).map trim)
      = some { st with iface := { st.iface with
                dns := if l = [] then st.iface.dns else l } } := by
  by_cases hnil : l = []
  · rw [if_pos hnil, if_pos hnil]
    rfl
  · rw [if_neg hnil, if_neg hnil]
    simp only [List.map_cons, List.map_nil]
    rw [runLines_cons_some (stepDNS st hsec l hl hnil)]
    rfl

theorem runMtuChunk (st : PState) (hsec : st.sec = Sect.iface) (o : Option Int) :
    runLines st ((match o with
                  | some m => if m = 0 then [] else [str ("MTU = ") ++ intToStr m]
                  | none => ([] : List Str)).map trim)
      = some st := by
  rcases o with _ | m
  · rfl
  · show runLines st ((if m = 0 then [] else [str ("MTU = ") ++ intToStr m]).map trim) = some st
    by_cases hz : m = 0
    · rw [if_pos hz]
      rfl
    · rw [if_neg hz]
      simp only [List.map_cons, List.map_nil]
      rw [runLines_cons_some (stepMTU st hsec m)]
      rfl

theorem runPuChunk (st : PState) (hsec : st.sec = Sect.iface) (o : Option Str)
    (ho : cleanScript o) :
    runLines st ((match o with
                  | some s => if s = [] then [] else [str ("PostUp = ") ++ jsReplaceNewlines s]
                  | none => ([] : List Str)).map trim)
      = some { st with iface := { st.iface with
                postUp := o.or st.iface.postUp } } := by
  rcases o with _ | s
  · rfl
  · show runLines st ((if s = [] then [] else [str ("PostUp = ") ++ jsReplaceNewlines s]).map trim)
        = some { st with iface := { st.iface with postUp := some s } }
    rw [if_neg ho.1]
    simp only [List.map_cons, List.map_nil]
    rw [runLines_cons_some (stepPostUp st hsec s ho)]
    rfl

theorem runPdChunk (st : PState) (hsec : st.sec = Sect.iface) (o : Option Str)
    (ho : cleanScript o) :
    runLines st ((match o with
                  | some s => if s = [] then [] else [str ("PostDown = ") ++ jsReplaceNewlines s]
                  | none => ([] : List Str)).map trim)
      = some { st with iface := { st.iface with
                postDown := o.or st.iface.postDown } } := by
  rcases o with _ | s
  · rfl
  · show runLines st
          ((if s = [] then [] else [str ("PostDown = ") ++ jsReplaceNewlines s]).map trim)
        = some { st with iface := { st.iface with postDown := some s } }
    rw [if_neg ho.1]
    simp only [List.map_cons, List.map_nil]
    rw [runLines_cons_some (stepPostDown st hsec s ho)]
    rfl

theorem run_iface (gpk : Str → Str) (settings : Settings) (c : WireGuardConfig)
    (h : WireClean gpk c) :
    runLines {} ((genInterfaceLines gpk settings c).map trim)
      = some { sec := Sect.iface, iface := c.iface, peers := [], cur := none } := by
  obtain ⟨hpk, hgpk, hep, haddr, hlp, hdns, hpu, hpd, hpeers⟩ := h
  unfold genInterfaceLines
  simp only [List.map_append, List.map_cons, List.map_nil, List.append_assoc, List.cons_append,
             List.nil_append]
  rw [runLines_cons_some
        (show processLine {} (trim (str ("[Interface]")))
            = some { sec := Sect.iface, iface := {}, peers := [], cur := none } by
          rw [show trim (str ("[Interface]")) = str ("[Interface]") from by decide]
          exact processLine_ifaceHeader {})]
  rw [runLines_cons_some (stepPrivateKey _ rfl c.iface.privateKey hpk)]
  rw [runLines_cons_some (stepPubComment _ rfl (gpk c.iface.privateKey) hgpk)]
  rw [runLines_chunk (runEpChunk _ rfl c.iface.endpoint hep)]
  rw [runLines_chunk (runAddrChunk _ rfl c.iface.address haddr)]
  rw [runLines_chunk (runLpChunk _ rfl c.iface.listenPort hlp)]
  rw [runLines_chunk (runDnsChunk _ rfl c.iface.dns hdns)]
  rw [runLines_chunk (runMtuChunk _ rfl settings.mtu)]
  rw [runLines_chunk (runPuChunk _ rfl c.iface.postUp hpu)]
  rw [runPdChunk _ rfl c.iface.postDown hpd]
  simp only [Option.or_none, ite_nil_collapse]

theorem runPeerAllowedChunk (st : PState) (hsec : st.sec = Sect.peer) {q : PeerConfig}
    (hcur : st.cur = some q) (l : List Str) (hl : ∀ e ∈ l, cleanItem e) :
    runLines st ((if l = [] then ([] : List Str)
                  else [str ("AllowedIPs = ") ++ joinComma l]).map trim)
      = some { st with cur := some { q with allowedIPs := if l = [] then q.allowedIPs else l } } := by
  by_cases hnil : l = []
  · rw [if_pos hnil, if_pos hnil]
    show runLines st [] = some { st with cur := some q }
    rw [← hcur]
    rfl
  · rw [if_neg hnil, if_neg hnil]
    simp only [List.map_cons, List.map_nil]
    rw [runLines_cons_some (stepAllowedIPs st hsec hcur l hl hnil)]
    rfl

theorem runPeerEpChunk (st : PState) (hsec : st.sec = Sect.peer) {q : PeerConfig}
    (hcur : st.cur = some q) (o : Option Str) (ho : cleanOptStr o) :
    runLines st ((match o with
                  | some e => if e = [] then [] else [str ("Endpoint = ") ++ e]
                  | none => ([] : List Str)).map trim)
      = some { st with cur := some { q with endpoint := o.or q.endpoint } } := by
  rcases o with _ | e
  · show runLines st [] = some { st with cur := some q }
    rw [← hcur]
    rfl
  · show runLines st ((if e = [] then [] else [str ("Endpoint = ") ++ e]).map trim)
        = some { st with cur := some { q with endpoint := some e } }
    rw [if_neg ho.1]
    simp only [List.map_cons, List.map_nil]
    rw [runLines_cons_some (stepPeerEndpoint st hsec hcur e ho)]
    rfl

theorem runPeerKaChunk (st : PState) (hsec : st.sec = Sect.peer) {q : PeerConfig}
    (hcur : st.cur = some q) (o : Option Int) (ho : posKeepalive o) :
    runLines st ((match o with
                  | some n => if 0 < n then [str ("PersistentKeepalive = ") ++ intToStr n] else []
                  | none => ([] : List Str)).map trim)
      = some { st with cur := some { q with persistentKeepalive := o.or q.persistentKeepalive } } := by
  rcases o with _ | n
  · show runLines st [] = some { st with cur := some q }
    rw [← hcur]
    rfl
  · show runLines st
          ((if 0 < n then [str ("PersistentKeepalive = ") ++ intToStr n] else []).map trim)
        = some { st with cur := some { q with persistentKeepalive := some n } }
    rw [if_pos ho]
    simp only [List.map_cons, List.map_nil]
    rw [runLines_cons_some (stepKeepalive st hsec hcur n (le_of_lt ho))]
    rfl

theorem runPeerPskChunk (st : PState) (hsec : st.sec = Sect.peer) {q : PeerConfig}
    (hcur : st.cur = some q) (o : Option Str) (ho : cleanOptStr o) :
    runLines st ((match o with
                  | some k => if k = [] then [] else [str ("PresharedKey = ") ++ k]
                  | none => ([] : List Str)).map trim)
      = some { st with cur := some { q with presharedKey := o.or q.presharedKey } } := by
  rcases o with _ | k
  · show runLines st [] = some { st with cur := some q }
    rw [← hcur]
    rfl
  · show runLines st ((if k = [] then [] else [str ("PresharedKey = ") ++ k]).map trim)
        = some { st with cur := some { q with presharedKey := some k } }
    rw [if_neg ho.1]
    simp only [List.map_cons, List.map_nil]
    rw [runLines_cons_some (stepPresharedKey st hsec hcur k ho)]
    rfl

theorem run_peer_block (st : PState) (hsec : st.sec = Sect.iface ∨ st.sec = Sect.peer)
    (p : PeerConfig) (hp : cleanPeer p) :
    runLines st ((genPeerLines p).map trim)
      = some { st with
                sec := Sect.peer
                peers := st.peers ++ st.cur.toList
                cur := some (roundPeer p) } := by
  obtain ⟨hpk, hips, hep, hka, hpsk⟩ := hp
  unfold genPeerLines
  simp only [List.map_append, List.map_cons, List.map_nil, List.append_assoc, List.cons_append,
             List.nil_append]
  rw [runLines_cons_some (show processLine st (trim []) = some st from processLine_nil st)]
  rw [runLines_cons_some
        (show processLine st (trim (str ("[Peer]")))
            = some { st with
                      sec := Sect.peer
                      peers := st.peers ++ st.cur.toList
                      cur := some emptyPeer } by
          rw [show trim (str ("[Peer]")) = str ("[Peer]") from by decide]
          exact processLine_peerHeader st)]
  rw [runLines_cons_some (stepPeerPublicKey _ rfl rfl p.publicKey hpk)]
  rw [runLines_chunk (runPeerAllowedChunk _ rfl rfl p.allowedIPs hips)]
  rw [runLines_chunk (runPeerEpChunk _ rfl rfl p.endpoint hep)]
  rw [runLines_chunk (runPeerKaChunk _ rfl rfl p.persistentKeepalive hka)]
  rw [runPeerPskChunk _ rfl rfl p.presharedKey hpsk]
  simp only [Option.or_none, emptyPeer, roundPeer, ite_nil_collapse]

theorem run_peers (ps : List PeerConfig) : ∀ (st : PState),
    (∀ p ∈ ps, cleanPeer p) → (st.sec = Sect.iface ∨ st.sec = Sect.peer) →
    ∃ st2, runLines st ((ps.flatMap genPeerLines).map trim) = some st2
      ∧ st2.iface = st.iface
      ∧ st2.peers ++ st2.cur.toList = st.peers ++ st.cur.toList ++ ps.map roundPeer := by
  induction ps with
  | nil =>
    intro st _ _
    exact ⟨st, rfl, rfl, by simp⟩
  | cons p rest ih =>
    intro st hclean hsec
    rw [List.flatMap_cons, List.map_append,
        runLines_chunk (run_peer_block st hsec p (hclean p (List.mem_cons_self p rest)))]
    obtain ⟨st2, h1, h2, h3⟩ :=
      ih { st with
            sec := Sect.peer
            peers := st.peers ++ st.cur.toList
            cur := some (roundPeer p) }
        (fun q hq => hclean q (List.mem_cons_of_mem p hq)) (Or.inr rfl)
    refine ⟨st2, h1, h2, ?_⟩
    rw [h3]
    simp [Option.toList]

theorem noNL_append {a b : Str} (ha : '\n' ∉ a) (hb : '\n' ∉ b) : '\n' ∉ a ++ b := by
  intro hm
  rcases List.mem_append.mp hm with h | h
  · exact ha h
  · exact hb h

theorem joinComma_noNL {l : List Str} (hl : ∀ e ∈ l, '\n' ∉ e) : '\n' ∉ joinComma l := by
  cases l with
  | nil => simp [joinComma]
  | cons x xs =>
    intro hm
    rcases List.mem_append.mp hm with h | h
    · exact hl x (List.mem_cons_self x xs) h
    · obtain ⟨e, he, hm2⟩ := List.mem_flatMap.mp h
      rcases List.mem_cons.mp hm2 with h1 | hm3
      · exact absurd h1 (by decide)
      · rcases List.mem_cons.mp hm3 with h2 | hm4
        · exact absurd h2 (by decide)
        · exact hl e (List.mem_cons_of_mem x he) hm4

theorem genInterfaceLines_noNL (gpk : Str → Str) (settings : Settings) (c : WireGuardConfig)
    (h : WireClean gpk c) : ∀ l ∈ genInterfaceLines gpk settings c, '\n' ∉ l := by
  obtain ⟨hpk, hgpk, hep, haddr, hlp, hdns, hpu, hpd, _⟩ := h
  intro l hl
  unfold genInterfaceLines at hl
  simp only [List.append_assoc, List.cons_append, List.nil_append, List.mem_cons,
             List.mem_append] at hl
  rcases hl with rfl | hl
  · decide
  rcases hl with rfl | hl
  · exact noNL_append (by decide) hpk.1
  rcases hl with rfl | hl
  · exact noNL_append (by decide) hgpk.1
  rcases hl with hl | hl
  · rcases hE : c.iface.endpoint with _ | e
    · rw [hE] at hl
      exact absurd hl (List.not_mem_nil l)
    · rw [hE] at hl hep
      have hl' : l ∈ (if e = [] then ([] : List Str) else [str ("# Endpoint = ") ++ e]) := hl
      rw [if_neg hep.1] at hl'
      rw [List.mem_singleton.mp hl']
      exact noNL_append (by decide) hep.2.1
  rcases hl with hl | hl
  · by_cases ha : c.iface.address = []
    · rw [if_pos ha] at hl
      exact absurd hl (List.not_mem_nil l)
    · rw [if_neg ha] at hl
      rw [List.mem_singleton.mp hl]
      exact noNL_append (by decide) (joinComma_noNL (fun e he => (haddr e he).2.2.1))
  rcases hl with hl | hl
  · rcases hL : c.iface.listenPort with _ | n
    · rw [hL] at hl
      exact absurd hl (List.not_mem_nil l)
    · rw [hL] at hl hlp
      have hl' : l ∈ (if n = 0 then ([] : List Str) else [str ("ListenPort = ") ++ intToStr n]) := hl
      rw [if_neg hlp] at hl'
      rw [List.mem_singleton.mp hl']
      exact noNL_append (by decide) (intToStr_clean n).1
  rcases hl with hl | hl
  · by_cases hd : c.iface.dns = []
    · rw [if_pos hd] at hl
      exact absurd hl (List.not_mem_nil l)
    · rw [if_neg hd] at hl
      rw [List.mem_singleton.mp hl]
      exact noNL_append (by decide) (joinComma_noNL (fun e he => (hdns e he).2.2.1))
  rcases hl with hl | hl
  · rcases hM : settings.mtu with _ | m
    · rw [hM] at hl
      exact absurd hl (List.not_mem_nil l)
    · rw [hM] at hl
      have hl' : l ∈ (if m = 0 then ([] : List Str) else [str ("MTU = ") ++ intToStr m]) := hl
      by_cases hm0 : m = 0
      · rw [if_pos hm0] at hl'
        exact absurd hl' (List.not_mem_nil l)
      · rw [if_neg hm0] at hl'
        rw [List.mem_singleton.mp hl']
        exact noNL_append (by decide) (intToStr_clean m).1
  rcases hl with hl | hl
  · rcases hP : c.iface.postUp with _ | s
    · rw [hP] at hl
      exact absurd hl (List.not_mem_nil l)
    · rw [hP] at hl hpu
      have hl' : l ∈ (if s = [] then ([] : List Str) else [str ("PostUp = ") ++ jsReplaceNewlines s]) := hl
      rw [if_neg hpu.1] at hl'
      rw [List.mem_singleton.mp hl', jsReplaceNewlines_id hpu.2.2.1]
      exact noNL_append (by decide) hpu.2.2.1
  · rcases hP : c.iface.postDown with _ | s
    · rw [hP] at hl
      exact absurd hl (List.not_mem_nil l)
    · rw [hP] at hl hpd
      have hl' : l ∈ (if s = [] then ([] : List Str) else [str ("PostDown = ") ++ jsReplaceNewlines s]) := hl
      rw [if_neg hpd.1] at hl'
      rw [List.mem_singleton.mp hl', jsReplaceNewlines_id hpd.2.2.1]
      exact noNL_append (by decide) hpd.2.2.1

theorem genPeerLines_noNL (p : PeerConfig) (hp : cleanPeer p) :
    ∀ l ∈ genPeerLines p, '\n' ∉ l := by
  obtain ⟨hpk, hips, hep, hka, hpsk⟩ := hp
  intro l hl
  unfold genPeerLines at hl
  simp only [List.append_assoc, List.cons_append, List.nil_append, List.mem_cons,
             List.mem_append] at hl
  rcases hl with rfl | hl
  · decide
  rcases hl with rfl | hl
  · decide
  rcases hl with rfl | hl
  · exact noNL_append (by decide) hpk.1
  rcases hl with hl | hl
  · by_cases ha : p.allowedIPs = []
    · rw [if_pos ha] at hl
      exact absurd hl (List.not_mem_nil l)
    · rw [if_neg ha] at hl
      rw [List.mem_singleton.mp hl]
      exact noNL_append (by decide) (joinComma_noNL (fun e he => (hips e he).2.2.1))
  rcases hl with hl | hl
  · rcases hE : p.endpoint with _ | e
    · rw [hE] at hl
      exact absurd hl (List.not_mem_nil l)
    · rw [hE] at hl hep
      have hl' : l ∈ (if e = [] then ([] : List Str) else [str ("Endpoint = ") ++ e]) := hl
      rw [if_neg hep.1] at hl'
      rw [List.mem_singleton.mp hl']
      exact noNL_append (by decide) hep.2.1
  rcases hl with hl | hl
  · rcases hK : p.persistentKeepalive with _ | n
    · rw [hK] at hl
      exact absurd hl (List.not_mem_nil l)
    · rw [hK] at hl hka
      have hl' : l ∈ (if 0 < n then [str ("PersistentKeepalive = ") ++ intToStr n]
                      else ([] : List Str)) := hl
      rw [if_pos hka] at hl'
      rw [List.mem_singleton.mp hl']
      exact noNL_append (by decide) (intToStr_clean n).1
  · rcases hK : p.presharedKey with _ | k
    · rw [hK] at hl
      exact absurd hl (List.not_mem_nil l)
    · rw [hK] at hl hpsk
      have hl' : l ∈ (if k = [] then ([] : List Str) else [str ("PresharedKey = ") ++ k]) := hl
      rw [if_neg hpsk.1] at hl'
      rw [List.mem_singleton.mp hl']
      exact noNL_append (by decide) hpsk.2.1

theorem generateLines_noNL (gpk : Str → Str) (settings : Settings) (c : WireGuardConfig)
    (h : WireClean gpk c) : ∀ l ∈ generateLines gpk settings c none, '\n' ∉ l := by
  intro l hl
  rcases List.mem_append.mp hl with h1 | h1
  · exact genInterfaceLines_noNL gpk settings c h l h1
  · obtain ⟨p, hp, hm⟩ := List.mem_flatMap.mp h1
    exact genPeerLines_noNL p (h.2.2.2.2.2.2.2.2 p hp) l hm

theorem parse_generate (gpk : Str → Str) (settings : Settings) (c : WireGuardConfig) (nm : Str)
    (h : WireClean gpk c) :
    parseWireGuardConfig (generateWireGuardConfig gpk settings c none) nm
      = some { name := parsedName nm
               iface := c.iface
               peers := c.peers.map roundPeer } := by
  have hnl := generateLines_noNL gpk settings c h
  have hsplit : splitNL (generateWireGuardConfig gpk settings c none)
      = generateLines gpk settings c none ++ [[]] := by
    have h2 := @splitNL_joinLines (generateLines gpk settings c none) [] hnl
    rw [List.append_nil] at h2
    exact h2
  unfold parseWireGuardConfig
  rw [hsplit,
      show generateLines gpk settings c none
        = genInterfaceLines gpk settings c ++ c.peers.flatMap genPeerLines from rfl]
  simp only [List.map_append, List.map_cons, List.map_nil, List.append_assoc]
  rw [runLines_chunk (run_iface gpk settings c h)]
  obtain ⟨st2, h1, h2, h3⟩ := run_peers c.peers
      { sec := Sect.iface, iface := c.iface, peers := [], cur := none }
      h.2.2.2.2.2.2.2.2 (Or.inl rfl)
  rw [runLines_chunk h1,
      show runLines st2 [trim []] = some st2 from by
        rw [runLines_cons_some (show processLine st2 (trim []) = some st2
              from processLine_nil st2)]
        rfl]
  show (some { name := parsedName nm
               iface := st2.iface
               peers := st2.peers ++ st2.cur.toList } : Option WGParsed)
      = some { name := parsedName nm
               iface := c.iface
               peers := c.peers.map roundPeer }
  rw [h2, h3]
  rfl

/-- Claim C1 is refuted as stated: a peer whose stored `persistentKeepalive`
is `0` (a legitimate value the parser accepts) is emitted WITHOUT a
`PersistentKeepalive` line, because generation requires `> 0`; re-parsing
yields `undefined` instead of `0`, so the keepalive value is not reproduced. -/
theorem c1_counterexample :
    parsedKeepalives (parseWireGuardConfig (generateWireGuardConfig gpk0 settingsE cfgKA0 none) [])
        = some [none]
      ∧ peerKeepalives cfgKA0.peers = [some 0] := by
  decide

/-- Claim C1 (amended): for a wire-clean config — fields free of newlines and
edge whitespace, list items non-empty and comma-free, scripts semicolon-free,
`listenPort` non-zero, and every stored peer keepalive STRICTLY positive —
parsing the generated text (with no synthesized peers) reproduces the
interface exactly and every peer up to the purely in-memory `configId`; in
particular each peer's publicKey, allowedIPs, endpoint and keepalive survive. -/
theorem c1_amended (gpk : Str → Str) (settings : Settings) (c : WireGuardConfig)
    (nm : Str) (h : WireClean gpk c) :
    parseWireGuardConfig (generateWireGuardConfig gpk settings c none) nm
      = some { name := parsedName nm
               iface := c.iface
               peers := c.peers.map roundPeer }
    ∧ (c.peers.map roundPeer).map peerView = c.peers.map peerView :=
  ⟨parse_generate gpk settings c nm h,
   List.map_map peerView roundPeer c.peers ▸ rfl⟩

/-- Claim C1 (witness): the amended round trip evaluated on a concrete config
exercising every emitted interface and peer field. -/
theorem c1_amended_witness :
    WireClean gpk0 cfgW
    ∧ (parseWireGuardConfig (generateWireGuardConfig gpk0 settingsW cfgW none) (str ("n"))
        = some { name := parsedName (str ("n"))
                 iface := cfgW.iface
                 peers := cfgW.peers.map roundPeer }
      ∧ (cfgW.peers.map roundPeer).map peerView = cfgW.peers.map peerView) :=
  ⟨by decide, c1_amended gpk0 settingsW cfgW (str ("n")) (by decide)⟩

/-- Claim C2 is refuted as stated: `allOwn` contains `cfgOwnB`, a DIFFERENT
config (distinct id) whose derived public key coincides with no explicit
peer's key (`cfgOwnA` has none), so the claim predicts one synthesized peer
for it; but the source filters on raw private-key equality
(`c.interface.privateKey !== config.interface.privateKey`), so `cfgOwnB` —
which shares `cfgOwnA`'s private key — produces nothing. -/
theorem c2_counterexample :
    cfgOwnA.enableAllPeers = some true
    ∧ cfgOwnA.peers = []
    ∧ cfgOwnB ∈ allOwn.map Prod.snd
    ∧ cfgOwnB.id ≠ cfgOwnA.id
    ∧ expandedPeers gpk0 settingsE cfgOwnA (some allOwn) = [] := by
  decide

/-- Claim C2 (amended): with `enableAllPeers` set, the emitted peer list is
the explicit peers first, in stored order, followed by the synthesized peers
in collection order; no synthesized peer's public key equals an explicit
peer's public key; and every synthesized peer arises, via `peerFromConfig`,
from a collection member whose id AND raw private key both differ from the
config's own (not merely from a config with a distinct derived key). -/
theorem c2_amended (gpk : Str → Str) (settings : Settings) (config : WireGuardConfig)
    (m : List (Str × WireGuardConfig)) (hall : config.enableAllPeers = some true) :
    expandedPeers gpk settings config (some m)
        = config.peers ++ synthesizedPeers gpk settings config m
    ∧ (∀ q ∈ synthesizedPeers gpk settings config m,
        ∀ p ∈ config.peers, p.publicKey ≠ q.publicKey)
    ∧ (∀ q ∈ synthesizedPeers gpk settings config m,
        ∃ c ∈ m.map Prod.snd,
          c.id ≠ config.id ∧ c.iface.privateKey ≠ config.iface.privateKey
            ∧ q = peerFromConfig gpk c settings) := by
  refine ⟨by simp [expandedPeers, hall], ?_, ?_⟩
  · intro q hq p hp
    unfold synthesizedPeers at hq
    obtain ⟨c, hc, rfl⟩ := List.mem_map.mp hq
    have hc2 := List.mem_filter.mp hc
    have hall2 := List.all_eq_true.mp hc2.2 p hp
    exact bne_iff_ne.mp hall2
  · intro q hq
    unfold synthesizedPeers at hq
    obtain ⟨c, hc, rfl⟩ := List.mem_map.mp hq
    have hc2 := List.mem_filter.mp hc
    have hc3 := List.mem_filter.mp hc2.1
    have hb := hc3.2
    rw [Bool.and_eq_true] at hb
    exact ⟨c, hc3.1, bne_iff_ne.mp hb.1, bne_iff_ne.mp hb.2, rfl⟩

/-- Claim C2 (witness): the amended statement evaluated on a collection of
three configs, one of which (`cfgOwnC`) yields a synthesized peer. -/
theorem c2_amended_witness :
    cfgOwnA.enableAllPeers = some true
    ∧ (expandedPeers gpk0 settingsE cfgOwnA (some allThree)
          = cfgOwnA.peers ++ synthesizedPeers gpk0 settingsE cfgOwnA allThree
      ∧ (∀ q ∈ synthesizedPeers gpk0 settingsE cfgOwnA allThree,
          ∀ p ∈ cfgOwnA.peers, p.publicKey ≠ q.publicKey)
      ∧ (∀ q ∈ synthesizedPeers gpk0 settingsE cfgOwnA allThree,
          ∃ c ∈ allThree.map Prod.snd,
            c.id ≠ cfgOwnA.id ∧ c.iface.privateKey ≠ cfgOwnA.iface.privateKey
              ∧ q = peerFromConfig gpk0 c settingsE)) :=
  ⟨rfl, c2_amended gpk0 settingsE cfgOwnA allThree rfl⟩

theorem stepKeepaliveVal (st : PState) (hsec : st.sec = Sect.peer) {p : PeerConfig}
    (hcur : st.cur = some p) (v : Str) (hv : cleanStr v) (k : Int)
    (hk : jsParseInt v = some k) (hge : 0 ≤ k) :
    processLine st (trim (str ("PersistentKeepalive = ") ++ v))
      = some { st with cur := some { p with persistentKeepalive := some k } } := by
  rw [show str ("PersistentKeepalive = ") ++ v
        = str ("PersistentKeepalive ") ++ '=' :: ' ' :: v from rfl,
      processLine_trim_peer_kv st hsec hcur _ _ (by decide) (by decide) (by decide)
        hv.2.1 hv.2.2,
      show lower (trim (str ("PersistentKeepalive "))) = str ("persistentkeepalive")
        from by decide]
  unfold applyPeerKV
  rw [if_neg (by decide), if_neg (by decide), if_neg (by decide), if_pos rfl, hk]
  simp [show ¬ k < 0 by omega]

theorem stepKeepaliveErr (st : PState) (hsec : st.sec = Sect.peer) {p : PeerConfig}
    (hcur : st.cur = some p) (v : Str) (hv : cleanStr v)
    (herr : jsParseInt v = none ∨ ∃ k, jsParseInt v = some k ∧ k < 0) :
    processLine st (trim (str ("PersistentKeepalive = ") ++ v)) = none := by
  rw [show str ("PersistentKeepalive = ") ++ v
        = str ("PersistentKeepalive ") ++ '=' :: ' ' :: v from rfl,
      processLine_trim_peer_kv st hsec hcur _ _ (by decide) (by decide) (by decide)
        hv.2.1 hv.2.2,
      show lower (trim (str ("PersistentKeepalive "))) = str ("persistentkeepalive")
        from by decide]
  unfold applyPeerKV
  rw [if_neg (by decide), if_neg (by decide), if_neg (by decide), if_pos rfl]
  rcases herr with hn | ⟨k, hk, hlt⟩
  · rw [hn]
    rfl
  · rw [hk]
    show ((if k < 0 then none
           else some { p with persistentKeepalive := some k }).map
            (fun q => { st with cur := some q })) = none
    rw [if_pos hlt]
    rfl

theorem runLines_none {st : PState} {l : Str} (ls : List Str)
    (h : processLine st l = none) : runLines st (l :: ls) = none := by
  simp [runLines, h]

/-- Claim C3: after any prefix of clean lines that leaves the parser inside a
`[Peer]` section, a `PersistentKeepalive` line whose value does not parse as
a number, or parses negative, aborts the whole parse (regardless of any
following text); a value parsing to a non-negative number k instead yields a
config whose final peer carries `persistentKeepalive = k`. -/
theorem c3_keepalive (pre : List Str) (tail : Str) (st : PState) (nm v : Str)
    (hprenl : ∀ l ∈ pre, '\n' ∉ l)
    (hpre : runLines {} (pre.map trim) = some st)
    (hsec : st.sec = Sect.peer) (p : PeerConfig) (hcur : st.cur = some p)
    (hv : cleanStr v) :
    ((jsParseInt v = none ∨ ∃ k, jsParseInt v = some k ∧ k < 0) →
      parseWireGuardConfig
          (joinLines (pre ++ [str ("PersistentKeepalive = ") ++ v]) ++ tail) nm = none)
    ∧ (∀ k, jsParseInt v = some k → 0 ≤ k →
        parseWireGuardConfig (joinLines (pre ++ [str ("PersistentKeepalive = ") ++ v])) nm
          = some { name := parsedName nm
                   iface := st.iface
                   peers := st.peers ++ [{ p with persistentKeepalive := some k }] }) := by
  have hbadnl : '\n' ∉ str ("PersistentKeepalive = ") ++ v := noNL_append (by decide) hv.1
  have hLnl : ∀ l ∈ pre ++ [str ("PersistentKeepalive = ") ++ v], '\n' ∉ l := by
    intro l hl
    rcases List.mem_append.mp hl with h1 | h1
    · exact hprenl l h1
    · rw [List.mem_singleton.mp h1]
      exact hbadnl
  constructor
  · intro herr
    unfold parseWireGuardConfig
    rw [splitNL_joinLines hLnl]
    simp only [List.map_append, List.map_cons, List.map_nil, List.append_assoc,
               List.cons_append, List.nil_append]
    rw [runLines_chunk hpre,
        runLines_none _ (stepKeepaliveErr st hsec hcur v hv herr)]
  · intro k hk hge
    unfold parseWireGuardConfig
    have hsplit := @splitNL_joinLines (pre ++ [str ("PersistentKeepalive = ") ++ v]) [] hLnl
    rw [List.append_nil] at hsplit
    rw [hsplit, show splitNL ([] : Str) = [([] : Str)] from rfl]
    simp only [List.map_append, List.map_cons, List.map_nil, List.append_assoc,
               List.cons_append, List.nil_append]
    rw [runLines_chunk hpre,
        runLines_cons_some (stepKeepaliveVal st hsec hcur v hv k hk hge),
        runLines_cons_some (show processLine
            { st with cur := some { p with persistentKeepalive := some k } } (trim [])
            = some { st with cur := some { p with persistentKeepalive := some k } }
          from processLine_nil _)]
    rfl

/-- Claim C3 (witness): inside a fresh `[Peer]` section, the value `-1`
aborts the parse and the value `25` is stored on the peer. -/
theorem c3_witness :
    parseWireGuardConfig
        (joinLines ([str ("[Peer]")] ++ [str ("PersistentKeepalive = ") ++ str ("-1")]) ++ [])
        [] = none
    ∧ parseWireGuardConfig
        (joinLines ([str ("[Peer]")] ++ [str ("PersistentKeepalive = ") ++ str ("25")])) []
      = some { name := parsedName []
               iface := {}
               peers := [] ++ [{ emptyPeer with persistentKeepalive := some 25 }] } :=
  ⟨(c3_keepalive [str ("[Peer]")] [] ⟨Sect.peer, {}, [], some emptyPeer⟩ [] (str ("-1"))
      (by decide) (by decide) rfl emptyPeer rfl (by decide)).1
      (Or.inr ⟨-1, by decide, by decide⟩),
   (c3_keepalive [str ("[Peer]")] [] ⟨Sect.peer, {}, [], some emptyPeer⟩ [] (str ("25"))
      (by decide) (by decide) rfl emptyPeer rfl (by decide)).2 25 (by decide) (by decide)⟩

/-- Claim C4 is refuted as stated: the non-blank line `hello` before any
section header does NOT abort the parse — outside a section the source
throws only when the line contains `=`; anything else is silently skipped. -/
theorem c4_counterexample :
    parseWireGuardConfig (str ("hello")) (str ("n"))
      = some { name := str ("n"), iface := {}, peers := [] } := by
  decide

/-- Claim C4 (amended): in the NoSection state, a trimmed non-blank line that
is not a section header is a fatal parse error IF AND ONLY IF it contains
`=`; a line without `=` is skipped and leaves the parser state unchanged. -/
theorem c4_amended (st : PState) (hsec : st.sec = Sect.nosec) (t : Str) (hne : t ≠ [])
    (hi : t ≠ str ("[Interface]")) (hp : t ≠ str ("[Peer]")) :
    ('=' ∈ t → processLine st t = none)
    ∧ ('=' ∉ t → processLine st t = some st) := by
  have hcmt : ¬ (t.head? = some '#' ∧ st.sec = Sect.iface) := by
    rintro ⟨_, h2⟩
    rw [hsec] at h2
    exact absurd h2 (by decide)
  constructor
  · intro hmem
    rcases hbk : breakAtFirst '=' t with _ | kv
    · exact absurd (breakAtFirst_none_iff.mp hbk) (not_not_intro hmem)
    · unfold processLine
      rw [if_neg hne, if_neg hcmt, if_neg hi, if_neg hp, hsec, hbk]
  · intro hmem
    have hbk : breakAtFirst '=' t = none := breakAtFirst_none_iff.mpr hmem
    unfold processLine
    rw [if_neg hne, if_neg hcmt, if_neg hi, if_neg hp, hsec, hbk]

/-- Claim C4 (witness): in the initial state, `hello` is skipped unchanged
and `a=b` is a fatal error. -/
theorem c4_amended_witness :
    processLine {} (str ("a=b")) = none ∧ processLine {} (str ("hello")) = some {} :=
  ⟨(c4_amended {} rfl (str ("a=b")) (by decide) (by decide) (by decide)).1 (by decide),
   (c4_amended {} rfl (str ("hello")) (by decide) (by decide) (by decide)).2 (by decide)⟩

/-- Claim C5 is refuted as stated: the comment line `# note` inside
`[Interface]` is NOT skipped — because the source's comment special case does
not `continue`, a comment without `=` falls through to the generic key/value
check and aborts the parse. -/
theorem c5_counterexample :
    parseWireGuardConfig (str ("[Interface]") ++ '\n' :: str ("# note")) (str ("n"))
      = none := by
  decide

/-- Claim C5 (amended): inside a section, a `#` line WITHOUT `=` is a fatal
parse error (not a skip); a `#` line WITH `=` never errors and is a no-op,
except that in the `[Interface]` section a `# Endpoint = value` comment sets
the interface's advisory endpoint to the trimmed value. -/
theorem c5_comments (st : PState) :
    (∀ t : Str, t.head? = some '#' → '=' ∉ t → st.sec ≠ Sect.nosec →
        processLine st t = none)
    ∧ (∀ k post : Str, '=' ∉ k → st.sec = Sect.iface →
        processLine st (('#' :: k) ++ '=' :: post)
          = some (if lower (trim k) = str ("endpoint")
                  then { st with iface := { st.iface with endpoint := some (trim post) } }
                  else st))
    ∧ (∀ k post : Str, '=' ∉ k → st.sec = Sect.peer →
        processLine st (('#' :: k) ++ '=' :: post) = some st) := by
  refine ⟨?_, ?_, ?_⟩
  · intro t hhash hmem hsec
    obtain ⟨rest, rfl⟩ : ∃ rest, t = '#' :: rest := by
      cases t with
      | nil => simp at hhash
      | cons c ct =>
        simp at hhash
        exact ⟨ct, by rw [hhash]⟩
    have hne : ('#' :: rest) ≠ ([] : Str) := by simp
    have hbk : breakAtFirst '=' ('#' :: rest) = none := breakAtFirst_none_iff.mpr hmem
    have hInt : ('#' :: rest) ≠ str ("[Interface]") := head_cons_ne (by decide)
    have hPeer : ('#' :: rest) ≠ str ("[Peer]") := head_cons_ne (by decide)
    rcases hs : st.sec with _ | _ | _
    · exact absurd hs hsec
    · have hcmt : ('#' :: rest).head? = some '#' ∧ st.sec = Sect.iface := ⟨rfl, hs⟩
      unfold processLine
      rw [if_neg hne, if_pos hcmt]
      simp only [hbk]
      rw [if_neg hInt, if_neg hPeer, hs]
    · have hcmt : ¬ (('#' :: rest).head? = some '#' ∧ st.sec = Sect.iface) := by
        rintro ⟨_, h2⟩
        rw [hs] at h2
        exact absurd h2 (by decide)
      unfold processLine
      rw [if_neg hne, if_neg hcmt, if_neg hInt, if_neg hPeer, hs, hbk]
  · intro k post hk hs
    exact processLine_iface_comment st hs k post hk
  · intro k post hk hs
    have hne : ('#' :: k) ++ '=' :: post ≠ ([] : Str) := by simp
    have hmem : '=' ∈ ('#' :: k) ++ '=' :: post := by simp
    have hInt : ('#' :: k) ++ '=' :: post ≠ str ("[Interface]") :=
      ne_of_mem_notMem hmem (by decide)
    have hPeer : ('#' :: k) ++ '=' :: post ≠ str ("[Peer]") :=
      ne_of_mem_notMem hmem (by decide)
    have hk2 : '=' ∉ '#' :: k := by
      intro hm
      rcases List.mem_cons.mp hm with he | hm2
      · exact absurd he (by decide)
      · exact hk hm2
    have hbreak : breakAtFirst '=' (('#' :: k) ++ '=' :: post) = some ('#' :: k, post) :=
      breakAtFirst_eq hk2
    have hcmt : ¬ ((('#' :: k) ++ '=' :: post).head? = some '#' ∧ st.sec = Sect.iface) := by
      rintro ⟨_, h2⟩
      rw [hs] at h2
      exact absurd h2 (by decide)
    have hh : (lower (trim ('#' :: k))).head? = some '#' := by
      rw [trim_cons_head (by decide)]
      rfl
    rcases hc : st.cur with _ | p
    · unfold processLine
      rw [if_neg hne, if_neg hcmt, if_neg hInt, if_neg hPeer, hs]
      simp only [hbreak, hc]
    · unfold processLine
      rw [if_neg hne, if_neg hcmt, if_neg hInt, if_neg hPeer, hs]
      simp only [hbreak, hc]
      rw [applyPeerKV_hash p (trim post) hh]
      show (some { st with
                    sec := Sect.peer
                    cur := some p } : Option PState) = some st
      rw [← hs, ← hc]

/-- Claim C5 (witness): in an `[Interface]` state a bare `# note` comment is
fatal, a `# Endpoint = …` comment sets the advisory endpoint, and in a
`[Peer]` state a `# … = …` comment is a no-op. -/
theorem c5_witness :
    processLine ⟨Sect.iface, {}, [], none⟩ (str ("# note")) = none
    ∧ processLine ⟨Sect.iface, {}, [], none⟩
          (('#' :: str (" Endpoint")) ++ '=' :: str (" 1.2.3.4:51820"))
        = some (if lower (trim (str (" Endpoint"))) = str ("endpoint")
                then { (⟨Sect.iface, {}, [], none⟩ : PState) with
                        iface := { ({} : InterfaceConfig) with
                          endpoint := some (trim (str (" 1.2.3.4:51820"))) } }
                else ⟨Sect.iface, {}, [], none⟩)
    ∧ processLine ⟨Sect.peer, {}, [], some emptyPeer⟩ (('#' :: str (" note")) ++ '=' :: str ("x"))
        = some ⟨Sect.peer, {}, [], some emptyPeer⟩ :=
  ⟨(c5_comments ⟨Sect.iface, {}, [], none⟩).1 (str ("# note")) rfl (by decide) (by decide),
   (c5_comments ⟨Sect.iface, {}, [], none⟩).2.1 (str (" Endpoint")) (str (" 1.2.3.4:51820"))
     (by decide) rfl,
   (c5_comments ⟨Sect.peer, {}, [], some emptyPeer⟩).2.2 (str (" note")) (str ("x"))
     (by decide) rfl⟩

theorem takeWhile_append_stop {p : Char → Bool} {a b : Str} {x : Char}
    (ha : ∀ c ∈ a, p c = true) (hx : p x = false) :
    (a ++ x :: b).takeWhile p = a := by
  induction a with
  | nil => simp [List.takeWhile_cons, hx]
  | cons c t ih =>
    have hc := ha c (List.mem_cons_self c t)
    simp [List.takeWhile_cons, hc, ih (fun d hd => ha d (List.mem_cons_of_mem c hd))]

theorem replaceCidrSuffix_eq {t ds : Str} (repl : Str)
    (hds : ∀ c ∈ ds, c.isDigit = true) (hne : ds ≠ []) :
    replaceCidrSuffix (t ++ '/' :: ds) repl = t ++ repl := by
  have hrev : (t ++ '/' :: ds).reverse = ds.reverse ++ '/' :: t.reverse := by
    simp
  have htake : (ds.reverse ++ '/' :: t.reverse).takeWhile Char.isDigit = ds.reverse :=
    takeWhile_append_stop (fun c hc => hds c (List.mem_reverse.mp hc)) (by decide)
  have hrne : ds.reverse ≠ [] := fun h => hne (by simpa using congrArg List.reverse h)
  simp only [replaceCidrSuffix]
  rw [hrev, htake, if_neg hrne, List.drop_left]
  show t.reverse.reverse ++ repl = t ++ repl
  rw [List.reverse_reverse]

theorem mapSingleHostAddr_dot {t ds : Str} (hdot : '.' ∈ t)
    (hds : ∀ c ∈ ds, c.isDigit = true) (hne : ds ≠ []) :
    mapSingleHostAddr (t ++ '/' :: ds) = t ++ str ("/32") := by
  unfold mapSingleHostAddr
  rw [if_pos (List.mem_append.mpr (Or.inl hdot)), replaceCidrSuffix_eq _ hds hne]

theorem mapSingleHostAddr_colon {t ds : Str} (hnodot : '.' ∉ t) (hcol : ':' ∈ t)
    (hds : ∀ c ∈ ds, c.isDigit = true) (hne : ds ≠ []) :
    mapSingleHostAddr (t ++ '/' :: ds) = t ++ str ("/128")  := by
  have hnd : '.' ∉ t ++ '/' :: ds := by
    intro hm
    rcases List.mem_append.mp hm with h1 | h1
    · exact hnodot h1
    · rcases List.mem_cons.mp h1 with he | h2
      · exact absurd he (by decide)
      · have := hds '.' h2
        exact absurd this (by decide)
  unfold mapSingleHostAddr
  rw [if_neg hnd, if_pos (List.mem_append.mpr (Or.inl hcol)),
      replaceCidrSuffix_eq _ hds hne]

/-- Claim C6: `peerFromConfig` derives the public key from the source's
private key, narrows each interface address's CIDR suffix to `/32` when the
address contains a dot and to `/128` when it contains a colon (and no dot),
carries over the advisory endpoint, takes `persistentKeepalive` from the
settings, and stamps `configId` with the source config's id. -/
theorem c6_peerFromConfig (gpk : Str → Str) (config : WireGuardConfig) (settings : Settings) :
    (peerFromConfig gpk config settings).publicKey = gpk config.iface.privateKey
    ∧ (peerFromConfig gpk config settings).allowedIPs
        = config.iface.address.map mapSingleHostAddr
    ∧ (peerFromConfig gpk config settings).endpoint = config.iface.endpoint
    ∧ (peerFromConfig gpk config settings).persistentKeepalive = settings.persistentKeepalive
    ∧ (peerFromConfig gpk config settings).configId = some config.id
    ∧ (∀ t ds : Str, '.' ∈ t → (∀ c ∈ ds, c.isDigit = true) → ds ≠ [] →
        mapSingleHostAddr (t ++ '/' :: ds) = t ++ str ("/32"))
    ∧ (∀ t ds : Str, '.' ∉ t → ':' ∈ t → (∀ c ∈ ds, c.isDigit = true) → ds ≠ [] →
        mapSingleHostAddr (t ++ '/' :: ds) = t ++ str ("/128")) :=
  ⟨rfl, rfl, rfl, rfl, rfl,
   fun _ _ hdot hds hne => mapSingleHostAddr_dot hdot hds hne,
   fun _ _ hnodot hcol hds hne => mapSingleHostAddr_colon hnodot hcol hds hne⟩

/-- Claim C6 (witness): the CIDR narrowing evaluated on one IPv4 and one
IPv6 address, plus the `configId` stamp on a concrete config. -/
theorem c6_witness :
    mapSingleHostAddr (str ("10.0.0.1") ++ '/' :: str ("24")) = str ("10.0.0.1") ++ str ("/32")
    ∧ mapSingleHostAddr (str ("fd00::1") ++ '/' :: str ("64"))
        = str ("fd00::1") ++ str ("/128")
    ∧ (peerFromConfig gpk0 cfgW settingsW).configId = some cfgW.id :=
  ⟨(c6_peerFromConfig gpk0 cfgW settingsW).2.2.2.2.2.1 (str ("10.0.0.1")) (str ("24"))
     (by decide) (by decide) (by decide),
   (c6_peerFromConfig gpk0 cfgW settingsW).2.2.2.2.2.2 (str ("fd00::1")) (str ("64"))
     (by decide) (by decide) (by decide) (by decide),
   (c6_peerFromConfig gpk0 cfgW settingsW).2.2.2.2.1⟩

/-- Claim C7: generation never mutates the config's stored peer list — the
peer expansion is a fresh list whose first `config.peers.length` entries are
exactly the stored peers (so `config.peers` is recoverable unchanged even
when `enableAllPeers` appends synthesized peers to the emitted text). -/
theorem c7_frame (gpk : Str → Str) (settings : Settings) (config : WireGuardConfig)
    (allConfigs : Option (List (Str × WireGuardConfig))) :
    (expandedPeers gpk settings config allConfigs).take config.peers.length = config.peers
    ∧ config.peers.length ≤ (expandedPeers gpk settings config allConfigs).length := by
  rcases allConfigs with _ | m
  · exact ⟨List.take_length config.peers, le_rfl⟩
  · by_cases h : config.enableAllPeers = some true
    · have heq : expandedPeers gpk settings config (some m)
          = config.peers ++ synthesizedPeers gpk settings config m := by
        simp [expandedPeers, h]
      rw [heq]
      exact ⟨List.take_left _ _, by simp⟩
    · have heq : expandedPeers gpk settings config (some m) = config.peers := by
        simp [expandedPeers, h]
      rw [heq]
      exact ⟨List.take_length config.peers, le_rfl⟩

theorem breakAtFirst_some {c : Char} : ∀ {s a b : Str}, breakAtFirst c s = some (a, b) →
    s = a ++ c :: b ∧ c ∉ a := by
  intro s
  induction s with
  | nil =>
    intro a b h
    simp [breakAtFirst] at h
  | cons x xs ih =>
    intro a b h
    by_cases hx : x = c
    · subst hx
      unfold breakAtFirst at h
      rw [if_pos rfl] at h
      injection h with h2
      rw [Prod.mk.injEq] at h2
      obtain ⟨ha, hb⟩ := h2
      subst hb
      rw [← ha]
      exact ⟨rfl, List.not_mem_nil x⟩
    · unfold breakAtFirst at h
      rw [if_neg hx] at h
      rcases hbk : breakAtFirst c xs with _ | ⟨p, q⟩
      · rw [hbk] at h
        exact absurd h (by simp)
      · rw [hbk] at h
        injection h with h2
        rw [Prod.mk.injEq] at h2
        obtain ⟨ha, hb⟩ := h2
        obtain ⟨hs, hnp⟩ := ih hbk
        subst hb
        rw [← ha, hs]
        refine ⟨rfl, ?_⟩
        intro hm
        rcases List.mem_cons.mp hm with he | hm2
        · exact hx he.symm
        · exact hnp hm2

theorem breakAtLast_some {c : Char} {s h d : Str} (hb : breakAtLast c s = some (h, d)) :
    s = h ++ c :: d ∧ c ∉ d := by
  unfold breakAtLast at hb
  rcases hbk : breakAtFirst c s.reverse with _ | ⟨a, b⟩
  · rw [hbk] at hb
    exact absurd hb (by simp)
  · rw [hbk] at hb
    injection hb with h2
    rw [Prod.mk.injEq] at h2
    obtain ⟨hh, hd⟩ := h2
    obtain ⟨hs, hna⟩ := breakAtFirst_some hbk
    constructor
    · have h3 := congrArg List.reverse hs
      rw [List.reverse_reverse] at h3
      rw [h3, ← hh, ← hd]
      simp
    · rw [← hd]
      intro hm
      exact hna (List.mem_reverse.mp hm)

theorem breakAtLast_eq {c : Char} {h d : Str} (hnd : c ∉ d) :
    breakAtLast c (h ++ c :: d) = some (h, d) := by
  unfold breakAtLast
  have hrev : (h ++ c :: d).reverse = d.reverse ++ c :: h.reverse := by simp
  rw [hrev, breakAtFirst_eq (fun hm => hnd (List.mem_reverse.mp hm))]
  simp

/-- Claim C8 is refuted as stated: the endpoint `a:0` has port 0, outside the
claimed range 1–65535, yet `validateEndpoint` accepts it — the regex
`\d{1,5}$` only counts digits and never checks the port's numeric value
(`specEndpointShape`, written from the spec's words, rejects it). -/
theorem c8_counterexample :
    validateEndpoint (some (str ("a:0"))) = none
    ∧ specEndpointShape (str ("a:0")) = false
    ∧ validateEndpoint (some (str ("a:99999"))) = none
    ∧ specEndpointShape (str ("a:99999")) = false := by
  decide

/-- Claim C8 (amended): an `undefined` or empty endpoint is accepted; a
non-empty endpoint is accepted precisely when it splits at its LAST colon
into a host matching the regex's host alternation and a run of one to five
digits — the digit COUNT is checked, the port's numeric range 1–65535 is
not. -/
theorem c8_amended (s : Str) :
    validateEndpoint none = none
    ∧ (validateEndpoint (some s) = none ↔
        s = [] ∨ ∃ h d : Str, s = h ++ ':' :: d ∧ ':' ∉ d ∧ hostFormOk h = true
          ∧ d ≠ [] ∧ d.length ≤ 5 ∧ (∀ c ∈ d, c.isDigit = true)) := by
  refine ⟨rfl, ?_⟩
  by_cases hnil : s = []
  · subst hnil
    simp [validateEndpoint]
  · constructor
    · intro hv
      have hv2 : (if s = [] then none
                  else if endpointRegexTest s = true then none
                  else some (str ("Invalid endpoint format (e.g., example.com:51820)")))
          = (none : Option Str) := hv
      rw [if_neg hnil] at hv2
      by_cases ht : endpointRegexTest s = true
      · unfold endpointRegexTest at ht
        rcases hb : breakAtLast ':' s with _ | ⟨h, d⟩
        · rw [hb] at ht
          simp at ht
        · rw [hb] at ht
          rw [Bool.and_eq_true, Bool.and_eq_true, Bool.and_eq_true] at ht
          obtain ⟨hs2, hnd⟩ := breakAtLast_some hb
          refine Or.inr ⟨h, d, hs2, hnd, ht.1.1.1, ?_, of_decide_eq_true ht.1.2,
            List.all_eq_true.mp ht.2⟩
          have h4 := ht.1.1.2
          intro hdnil
          rw [hdnil] at h4
          exact absurd h4 (by decide)
      · rw [if_neg ht] at hv2
        exact Option.noConfusion hv2
    · intro hr
      rcases hr with hnil2 | ⟨h, d, rfl, hnd, hok, hdne, hlen, hdig⟩
      · exact absurd hnil2 hnil
      · have hie : d.isEmpty = false := by
          cases d with
          | nil => exact absurd rfl hdne
          | cons c t => rfl
        have ht : endpointRegexTest (h ++ ':' :: d) = true := by
          unfold endpointRegexTest
          rw [breakAtLast_eq hnd]
          rw [Bool.and_eq_true, Bool.and_eq_true, Bool.and_eq_true]
          refine ⟨⟨⟨hok, ?_⟩, decide_eq_true hlen⟩, List.all_eq_true.mpr hdig⟩
          rw [hie]
          rfl
        show (if h ++ ':' :: d = [] then (none : Option Str)
              else if endpointRegexTest (h ++ ':' :: d) = true then none
              else some (str ("Invalid endpoint format (e.g., example.com:51820)"))) = none
        rw [if_neg hnil, if_pos ht]

/-- Claim C8 (witness): the amended acceptance condition evaluated on
`host:51820`. -/
theorem c8_amended_witness :
    validateEndpoint (some (str ("host:51820"))) = none :=
  ((c8_amended (str ("host:51820"))).2).mpr
    (Or.inr ⟨str ("host"), str ("51820"), rfl, by decide, by decide, by decide, by decide,
      by decide⟩)

theorem nodup_iff_dedup_length {l : List Int} : l.Nodup ↔ l.dedup.length = l.length := by
  constructor
  · intro h
    rw [List.dedup_eq_self.mpr h]
  · intro h
    have heq : l.dedup = l := List.Sublist.eq_of_length (List.dedup_sublist l) h
    rw [← heq]
    exact List.nodup_dedup l

theorem hBoundErr_nil (key : Str) {v : Option Int}
    (h : optHolds (fun n => 0 ≤ n ∧ n ≤ 2147483647) v) : hBoundErr key v = [] := by
  rcases v with _ | n
  · rfl
  · obtain ⟨h1, h2⟩ := h
    show (if n < 0 ∨ n > 2147483647 then [(key, str ("Value must be 0-2147483647"))] else []) = []
    rw [if_neg (by omega)]

theorem hexFieldErr_nil (key : Str) {v : Option Str}
    (h : optHolds (fun s => s.all isHexDigitB = true) v) : hexFieldErr key v = [] := by
  rcases v with _ | s
  · rfl
  · show (if s ≠ [] ∧ ¬ s.all isHexDigitB = true then [(key, str ("Hex only"))] else []) = []
    rw [if_neg]
    rintro ⟨_, hall⟩
    exact hall h

theorem amneziaErrors_nil (a : AmneziaWGSettings) (hgood : amneziaGood a) :
    amneziaErrors a = [] := by
  obtain ⟨hnd, hbound, hs1, hs2, hs12, hjc, hjmin, hjmax, hjj, hhex⟩ := hgood
  have hHe : (if (hVals a).length ≠ (hVals a).dedup.length
              then [(str ("amneziaWG.Hx"), str ("H1-H4 must be unique"))]
              else ([] : List (Str × Str))) = [] := by
    rw [if_neg (fun hne => hne (nodup_iff_dedup_length.mp hnd).symm)]
  have hb1 : optHolds (fun n => 0 ≤ n ∧ n ≤ 2147483647) a.H1 := by
    rcases h : a.H1 with _ | n
    · trivial
    · have hmem : some n ∈ [a.H1, a.H2, a.H3, a.H4] := by
        rw [← h]
        simp
      exact hbound n (List.reduceOption_mem_iff.mpr hmem)
  have hb2 : optHolds (fun n => 0 ≤ n ∧ n ≤ 2147483647) a.H2 := by
    rcases h : a.H2 with _ | n
    · trivial
    · have hmem : some n ∈ [a.H1, a.H2, a.H3, a.H4] := by
        rw [← h]
        simp
      exact hbound n (List.reduceOption_mem_iff.mpr hmem)
  have hb3 : optHolds (fun n => 0 ≤ n ∧ n ≤ 2147483647) a.H3 := by
    rcases h : a.H3 with _ | n
    · trivial
    · have hmem : some n ∈ [a.H1, a.H2, a.H3, a.H4] := by
        rw [← h]
        simp
      exact hbound n (List.reduceOption_mem_iff.mpr hmem)
  have hb4 : optHolds (fun n => 0 ≤ n ∧ n ≤ 2147483647) a.H4 := by
    rcases h : a.H4 with _ | n
    · trivial
    · have hmem : some n ∈ [a.H1, a.H2, a.H3, a.H4] := by
        rw [← h]
        simp
      exact hbound n (List.reduceOption_mem_iff.mpr hmem)
  have hs1e : (match a.S1 with
               | some s1 =>
                 (if s1 > 1132 then [(str ("amneziaWG.S1"), str ("S1 must be le 1132"))] else [])
                 ++ (if s1 ≤ 0 then [(str ("amneziaWG.S1"), str ("S1 must be positive"))] else [])
               | none => ([] : List (Str × Str))) = [] := by
    rcases h : a.S1 with _ | s1
    · rfl
    · rw [h] at hs1
      obtain ⟨hp, hle⟩ := hs1
      show ((if s1 > 1132 then [(str ("amneziaWG.S1"), str ("S1 must be le 1132"))] else [])
            ++ (if s1 ≤ 0 then [(str ("amneziaWG.S1"), str ("S1 must be positive"))] else []))
          = []
      rw [if_neg (by omega), if_neg (by omega)]
      rfl
  have hs2e : (match a.S2 with
               | some s2 =>
                 (if s2 > 1188 then [(str ("amneziaWG.S2"), str ("S2 must be le 1188"))] else [])
                 ++ (if s2 ≤ 0 then [(str ("amneziaWG.S2"), str ("S2 must be positive"))] else [])
               | none => ([] : List (Str × Str))) = [] := by
    rcases h : a.S2 with _ | s2
    · rfl
    · rw [h] at hs2
      obtain ⟨hp, hle⟩ := hs2
      show ((if s2 > 1188 then [(str ("amneziaWG.S2"), str ("S2 must be le 1188"))] else [])
            ++ (if s2 ≤ 0 then [(str ("amneziaWG.S2"), str ("S2 must be positive"))] else []))
          = []
      rw [if_neg (by omega), if_neg (by omega)]
      rfl
  have hs12e : (match a.S1, a.S2 with
                | some s1, some s2 =>
                  if s1 + 56 = s2
                  then [(str ("amneziaWG.S1S2"), str ("S1 + 56 must not equal S2"))] else []
                | _, _ => ([] : List (Str × Str))) = [] := by
    rcases h1 : a.S1 with _ | s1
    · rfl
    · rcases h2 : a.S2 with _ | s2
      · rfl
      · rw [h1] at hs12
        rw [h2] at hs12
        show (if s1 + 56 = s2
              then [(str ("amneziaWG.S1S2"), str ("S1 + 56 must not equal S2"))] else []) = []
        rw [if_neg hs12]
  have hjce : (match a.Jc with
               | some jc =>
                 if jc < 0 ∨ jc > 128 then [(str ("amneziaWG.Jc"), str ("Jc 0-128"))] else []
               | none => ([] : List (Str × Str))) = [] := by
    rcases h : a.Jc with _ | jc
    · rfl
    · rw [h] at hjc
      obtain ⟨hp, hle⟩ := hjc
      show (if jc < 0 ∨ jc > 128 then [(str ("amneziaWG.Jc"), str ("Jc 0-128"))] else []) = []
      rw [if_neg (by omega)]
  have hjmine : (match a.Jmin with
                 | some jmin =>
                   if jmin ≥ 1280 then [(str ("amneziaWG.Jmin"), str ("Jmin lt 1280"))] else []
                 | none => ([] : List (Str × Str))) = [] := by
    rcases h : a.Jmin with _ | jmin
    · rfl
    · rw [h] at hjmin
      show (if jmin ≥ 1280 then [(str ("amneziaWG.Jmin"), str ("Jmin lt 1280"))] else []) = []
      rw [if_neg (by omega)]
  have hjmaxe : (match a.Jmax with
                 | some jmax =>
                   if jmax > 1280 then [(str ("amneziaWG.Jmax"), str ("Jmax le 1280"))] else []
                 | none => ([] : List (Str × Str))) = [] := by
    rcases h : a.Jmax with _ | jmax
    · rfl
    · rw [h] at hjmax
      show (if jmax > 1280 then [(str ("amneziaWG.Jmax"), str ("Jmax le 1280"))] else []) = []
      rw [if_neg (by omega)]
  have hjje : (match a.Jmin, a.Jmax with
               | some jmin, some jmax =>
                 if ¬ jmin < jmax
                 then [(str ("amneziaWG.JminJmax"), str ("Jmax must be gt Jmin"))] else []
               | _, _ => ([] : List (Str × Str))) = [] := by
    rcases h1 : a.Jmin with _ | jmin
    · rfl
    · rcases h2 : a.Jmax with _ | jmax
      · rfl
      · rw [h1] at hjj
        rw [h2] at hjj
        show (if ¬ jmin < jmax
              then [(str ("amneziaWG.JminJmax"), str ("Jmax must be gt Jmin"))] else []) = []
        rw [if_neg (not_not_intro hjj)]
  unfold amneziaErrors
  rw [hHe, hBoundErr_nil _ hb1, hBoundErr_nil _ hb2, hBoundErr_nil _ hb3, hBoundErr_nil _ hb4,
      hs1e, hs2e, hs12e,
      hexFieldErr_nil _ (hhex a.I1 (by simp)), hexFieldErr_nil _ (hhex a.I2 (by simp)),
      hexFieldErr_nil _ (hhex a.I3 (by simp)), hexFieldErr_nil _ (hhex a.I4 (by simp)),
      hexFieldErr_nil _ (hhex a.I5 (by simp)),
      hjce, hjmine, hjmaxe, hjje]
  rfl

/-- Claim C9: `validateAmnezia` returns `undefined` for an absent or disabled
settings object; when enabled it returns the empty error map exactly on
inputs satisfying all bounds and cross-field constraints, and a non-empty
error map whenever the defined H values repeat, or S1+56 = S2, or Jmax is
not greater than Jmin. -/
theorem c9_validateAmnezia (a : AmneziaWGSettings) :
    validateAmnezia none = none
    ∧ (a.enabled ≠ some true → validateAmnezia (some a) = none)
    ∧ (a.enabled = some true →
        (amneziaGood a → validateAmnezia (some a) = some [])
        ∧ (¬ (hVals a).Nodup → ∃ l, validateAmnezia (some a) = some l ∧ l ≠ [])
        ∧ (∀ s1 s2 : Int, a.S1 = some s1 → a.S2 = some s2 → s1 + 56 = s2 →
            ∃ l, validateAmnezia (some a) = some l ∧ l ≠ [])
        ∧ (∀ jmin jmax : Int, a.Jmin = some jmin → a.Jmax = some jmax → ¬ jmin < jmax →
            ∃ l, validateAmnezia (some a) = some l ∧ l ≠ [])) := by
  refine ⟨rfl, ?_, ?_⟩
  · intro h
    show (if a.enabled = some true then some (amneziaErrors a) else none) = none
    rw [if_neg h]
  · intro hen
    have hval : validateAmnezia (some a) = some (amneziaErrors a) := by
      show (if a.enabled = some true then some (amneziaErrors a) else none)
          = some (amneziaErrors a)
      rw [if_pos hen]
    refine ⟨?_, ?_, ?_, ?_⟩
    · intro hgood
      rw [hval, amneziaErrors_nil a hgood]
    · intro hnd
      refine ⟨amneziaErrors a, hval, ?_⟩
      intro hnil
      unfold amneziaErrors at hnil
      rw [if_pos (fun he => hnd (nodup_iff_dedup_length.mpr he.symm))] at hnil
      simp at hnil
    · intro s1 s2 h1 h2 h56
      refine ⟨amneziaErrors a, hval, ?_⟩
      intro hnil
      unfold amneziaErrors at hnil
      rw [h1, h2] at hnil
      simp [h56] at hnil
    · intro jmin jmax h1 h2 hjj
      refine ⟨amneziaErrors a, hval, ?_⟩
      intro hnil
      unfold amneziaErrors at hnil
      rw [h1, h2] at hnil
      simp [hjj] at hnil

/-- Claim C9 (witness): a fully-constrained enabled settings object validates
with an empty error map. -/
theorem c9_witness : validateAmnezia (some amzW) = some [] :=
  ((c9_validateAmnezia amzW).2.2 rfl).1 (by decide)

theorem nextLoopAux_least (used : List (Option Int)) (fuel : Nat) : ∀ next n : Nat,
    next ≤ n → n ≤ next + fuel → some (n : Int) ∉ used →
    (∀ m : Nat, next ≤ m → m < n → some (m : Int) ∈ used) →
    nextLoopAux used fuel next = n := by
  induction fuel with
  | zero =>
    intro next n h1 h2 _ _
    have he : next = n := by omega
    simp [nextLoopAux, he]
  | succ f ih =>
    intro next n h1 h2 hfree hbusy
    by_cases he : next = n
    · subst he
      show (if some (next : Int) ∈ used then nextLoopAux used f (next + 1) else next) = next
      rw [if_neg hfree]
    · have hlt : next < n := lt_of_le_of_ne h1 he
      show (if some (next : Int) ∈ used then nextLoopAux used f (next + 1) else next) = n
      rw [if_pos (hbusy next le_rfl hlt)]
      exact ih (next + 1) n (by omega) (by omega) hfree
        (fun m hm1 hm2 => hbusy m (by omega) hm2)

theorem nextLoopAux_exhaust (used : List (Option Int)) (fuel : Nat) : ∀ next : Nat,
    (∀ m : Nat, next ≤ m → m < next + fuel → some (m : Int) ∈ used) →
    nextLoopAux used fuel next = next + fuel := by
  induction fuel with
  | zero =>
    intro next _
    simp [nextLoopAux]
  | succ f ih =>
    intro next hb
    show (if some (next : Int) ∈ used then nextLoopAux used f (next + 1) else next) = next + (f + 1)
    rw [if_pos (hb next le_rfl (by omega))]
    rw [ih (next + 1) (fun m h1 h2 => hb m (by omega) (by omega))]
    omega

/-- Claim C10: the next-address buttons append, to the edited address list,
the address formatted from the LOWEST host number in `[1, 254]` (IPv4) resp.
`[1, 65534]` (IPv6 hex) that is not already used by an address of the same
family and identical prefix length across all configs; when every host
number in the range is used, the list is returned unchanged. -/
theorem c10_nextAddress (subnet : Str) (allA : List (List Str)) (edited : List Str) :
    (∀ n : Nat, 1 ≤ n → n ≤ 254 →
      some ((n : Nat) : Int) ∉ usedPoolV4 subnet allA edited →
      (∀ m : Nat, 1 ≤ m → m < n → some ((m : Nat) : Int) ∈ usedPoolV4 subnet allA edited) →
      addNetworkIPv4 subnet allA edited
        = edited ++ [fmtV4 (subnetBase subnet) (subnetMask subnet) n])
    ∧ ((∀ m : Nat, 1 ≤ m → m ≤ 254 → some ((m : Nat) : Int) ∈ usedPoolV4 subnet allA edited) →
        addNetworkIPv4 subnet allA edited = edited)
    ∧ (∀ n : Nat, 1 ≤ n → n ≤ 65534 →
        some ((n : Nat) : Int) ∉ usedPoolV6 subnet allA edited →
        (∀ m : Nat, 1 ≤ m → m < n → some ((m : Nat) : Int) ∈ usedPoolV6 subnet allA edited) →
        addNetworkIPv6 subnet allA edited
          = edited ++ [fmtV6 (subnetBase subnet) (subnetMask subnet) n])
    ∧ ((∀ m : Nat, 1 ≤ m → m ≤ 65534 →
          some ((m : Nat) : Int) ∈ usedPoolV6 subnet allA edited) →
        addNetworkIPv6 subnet allA edited = edited) := by
  refine ⟨?_, ?_, ?_, ?_⟩
  · intro n h1 h2 hfree hbusy
    have hloop : nextLoop (usedPoolV4 subnet allA edited) 255 1 = n :=
      nextLoopAux_least (usedPoolV4 subnet allA edited) 254 1 n h1 (by omega) hfree
        (fun m hm1 hm2 => hbusy m hm1 hm2)
    unfold addNetworkIPv4
    rw [hloop, if_pos (show n < 255 by omega)]
  · intro hbusy
    have hloop : nextLoop (usedPoolV4 subnet allA edited) 255 1 = 255 :=
      nextLoopAux_exhaust (usedPoolV4 subnet allA edited) 254 1
        (fun m hm1 hm2 => hbusy m hm1 (by omega))
    unfold addNetworkIPv4
    rw [hloop, if_neg (show ¬ (255 : Nat) < 255 by omega)]
  · intro n h1 h2 hfree hbusy
    have hloop : nextLoop (usedPoolV6 subnet allA edited) 65535 1 = n :=
      nextLoopAux_least (usedPoolV6 subnet allA edited) 65534 1 n h1 (by omega) hfree
        (fun m hm1 hm2 => hbusy m hm1 hm2)
    unfold addNetworkIPv6
    rw [hloop, if_pos (show n < 65535 by omega)]
  · intro hbusy
    have hloop : nextLoop (usedPoolV6 subnet allA edited) 65535 1 = 65535 :=
      nextLoopAux_exhaust (usedPoolV6 subnet allA edited) 65534 1
        (fun m hm1 hm2 => hbusy m hm1 (by omega))
    unfold addNetworkIPv6
    rw [hloop, if_neg (show ¬ (65535 : Nat) < 65535 by omega)]

/-- Claim C10 (witness): with pool `10.0.0.0/24`, host 1 already used and
host 2 free, the suggestion appends `10.0.0.2/24`. -/
theorem c10_witness :
    addNetworkIPv4 (str ("10.0.0.0/24")) [[str ("10.0.0.1/24")]] []
      = [] ++ [fmtV4 (subnetBase (str ("10.0.0.0/24"))) (subnetMask (str ("10.0.0.0/24"))) 2]
    ∧ fmtV4 (subnetBase (str ("10.0.0.0/24"))) (subnetMask (str ("10.0.0.0/24"))) 2
        = str ("10.0.0.2/24") :=
  ⟨(c10_nextAddress (str ("10.0.0.0/24")) [[str ("10.0.0.1/24")]] []).1 2 (by decide) (by decide)
     (by decide)
     (fun m hm1 hm2 => by
       have hm : m = 1 := by omega
       subst hm
       decide),
   by decide⟩
